import Mathlib

/-!
# Verification of the golive server runtime against its specification

Shallow embedding, in Lean 4, of the parts of the `golive` repository that
the specification's claims are about:

* the binary upload frame codec (`live/internal/phx/upload.go`),
* the text frame parser (`live/internal/phx/phx.go`),
* outbound reply construction and JSON marshalling (`live/internal/phx/reply.go`),
* the template tree builder and differ (`internal/tmpl/tree.go`),
* the upload engine (`live/uploads.go`),
* the `progress` case of the session dispatcher (`live/liveview.go`).

Go byte slices are modelled as `List Nat` (each element a byte value);
Go strings, which are byte sequences, are modelled as `List Nat` where the
byte content matters (binary codec) and as `String` elsewhere.
Fallible Go functions returning `(T, error)` are modelled with
`Except`/`Option`, and `panic` as an explicit error value.
-/

namespace Golive

/-! ## Binary upload frames (`live/internal/phx/upload.go`) -/

/-- `phx.UploadMsg`: the four string headers and the opaque payload of a
binary upload frame.  Go strings are byte sequences, so headers are
modelled as byte lists. -/
structure UploadMsg where
  joinRef : List Nat
  msgRef : List Nat
  topic : List Nat
  event : List Nat
  payload : List Nat
  deriving Repr, DecidableEq

/-- `UploadMsg.UnmarshalBinary`: reads the 5-byte size header
(`[0, J, M, T, E]`), checks that byte 0 is zero and that the declared
header lengths fit in the buffer, then slices the four headers and the
payload out of the remaining bytes. -/
def unmarshalBinary (data : List Nat) : Except String UploadMsg :=
  if data.length < 5 then .error "buffer too short"
  else
    match data with
    | ss :: j :: m :: t :: e :: rest =>
      if ss ≠ 0 then .error "expected ss to be 0"
      else
        let hl := j + m + t + e
        if 5 + hl > data.length then .error "invalid header length"
        else
          let h := rest.take hl
          .ok { joinRef := h.take j
                msgRef := ((h.drop j).take m)
                topic := (((h.drop j).drop m).take t)
                event := ((((h.drop j).drop m).drop t).take e)
                payload := rest.drop hl }
    | _ => .error "buffer too short"

/-- `UploadMsg.MarshalBinary`: emits the 5-byte size header followed by the
concatenated headers and the payload.  `byte(len s)` in Go truncates the
length to its low 8 bits, hence the `% 256`. -/
def marshalBinary (u : UploadMsg) : List Nat :=
  [0, u.joinRef.length % 256, u.msgRef.length % 256,
   u.topic.length % 256, u.event.length % 256]
  ++ u.joinRef ++ u.msgRef ++ u.topic ++ u.event ++ u.payload

/-- `UploadMsg.MarshalBinary` returns `(b, nil)`: the error result of the Go
function, which is the literal `nil` on its single return path. -/
def marshalBinaryErr (_ : UploadMsg) : Option String := none

/-- Decoding the output of `marshalBinary`, written symbolically: the size
header is always accepted (byte 0 is 0 and the declared lengths, being
truncated, never overflow), and the four headers are sliced back out of the
body using the truncated lengths. -/
theorem unmarshal_marshal_eq (u : UploadMsg) :
    unmarshalBinary (marshalBinary u) =
      let j := u.joinRef.length % 256
      let m := u.msgRef.length % 256
      let t := u.topic.length % 256
      let e := u.event.length % 256
      let hl := j + m + t + e
      let body := u.joinRef ++ u.msgRef ++ u.topic ++ u.event ++ u.payload
      .ok { joinRef := (body.take hl).take j
            msgRef := ((body.take hl).drop j).take m
            topic := (((body.take hl).drop j).drop m).take t
            event := ((((body.take hl).drop j).drop m).drop t).take e
            payload := body.drop hl } := by
  have hj : u.joinRef.length % 256 ≤ u.joinRef.length := Nat.mod_le _ _
  have hm : u.msgRef.length % 256 ≤ u.msgRef.length := Nat.mod_le _ _
  have ht : u.topic.length % 256 ≤ u.topic.length := Nat.mod_le _ _
  have he : u.event.length % 256 ≤ u.event.length := Nat.mod_le _ _
  simp only [unmarshalBinary, marshalBinary, List.cons_append, List.nil_append,
    List.length_cons, List.length_append]
  rw [if_neg (by omega), if_neg (by simp), if_neg (by omega)]

/-- C1: Binary upload frame round-trip.  Any byte sequence accepted by
`UploadMsg.UnmarshalBinary` (bytes are values below 256) re-encodes, via
`UploadMsg.MarshalBinary`, to a byte sequence identical to the input. -/
theorem upload_binary_roundtrip (data : List Nat) (hbytes : ∀ b ∈ data, b < 256)
    (u : UploadMsg) (hok : unmarshalBinary data = .ok u) :
    marshalBinary u = data := by
  unfold unmarshalBinary at hok
  split at hok
  · exact absurd hok (by simp)
  · next hlen =>
    split at hok
    · next ss j m t e rest =>
      split at hok
      · exact absurd hok (by simp)
      · next hss =>
        dsimp only [] at hok
        split at hok
        · exact absurd hok (by simp)
        · next hhl =>
          have hss0 : ss = 0 := by omega
          subst hss0
          have hrest : j + m + t + e ≤ rest.length := by
            simp only [List.length_cons] at hhl
            omega
          have hj : j < 256 := hbytes j (by simp)
          have hm : m < 256 := hbytes m (by simp)
          have ht : t < 256 := hbytes t (by simp)
          have he : e < 256 := hbytes e (by simp)
          -- name the slices
          set h := rest.take (j + m + t + e) with hh
          have hhlen : h.length = j + m + t + e := by
            rw [hh, List.length_take]; omega
          obtain rfl : u = { joinRef := h.take j
                             msgRef := (h.drop j).take m
                             topic := ((h.drop j).drop m).take t
                             event := (((h.drop j).drop m).drop t).take e
                             payload := rest.drop (j + m + t + e) } := by
            cases hok; rfl
          simp only [marshalBinary]
          have l1 : (h.take j).length = j := by
            rw [List.length_take]; omega
          have l2 : ((h.drop j).take m).length = m := by
            rw [List.length_take, List.length_drop]; omega
          have l3 : (((h.drop j).drop m).take t).length = t := by
            rw [List.length_take, List.length_drop, List.length_drop]; omega
          have l4 : ((((h.drop j).drop m).drop t).take e).length = e := by
            rw [List.length_take, List.length_drop, List.length_drop,
              List.length_drop]; omega
          rw [l1, l2, l3, l4, Nat.mod_eq_of_lt hj, Nat.mod_eq_of_lt hm,
            Nat.mod_eq_of_lt ht, Nat.mod_eq_of_lt he]
          have h4 : (((h.drop j).drop m).drop t).take e = ((h.drop j).drop m).drop t := by
            apply List.take_of_length_le
            rw [List.length_drop, List.length_drop, List.length_drop]; omega
          have step1 : ((h.drop j).drop m).take t ++ (((h.drop j).drop m).drop t
              ++ rest.drop (j + m + t + e)) = (h.drop j).drop m ++ rest.drop (j + m + t + e) := by
            rw [← List.append_assoc, List.take_append_drop]
          have step2 : (h.drop j).take m ++ ((h.drop j).drop m ++ rest.drop (j + m + t + e))
              = h.drop j ++ rest.drop (j + m + t + e) := by
            rw [← List.append_assoc, List.take_append_drop]
          have step3 : h.take j ++ (h.drop j ++ rest.drop (j + m + t + e))
              = h ++ rest.drop (j + m + t + e) := by
            rw [← List.append_assoc, List.take_append_drop]
          have hcat : h.take j ++ ((h.drop j).take m ++ (((h.drop j).drop m).take t
              ++ ((((h.drop j).drop m).drop t).take e ++ rest.drop (j + m + t + e)))) = rest := by
            rw [h4, step1, step2, step3, hh, List.take_append_drop]
          simp only [List.cons_append, List.nil_append, List.append_assoc]
          rw [hcat]
    · next hne =>
      exact absurd hok (by simp)

/-- Witness for C1 at the spec's seed scenario 5: join_ref `"7"`, msg_ref
`"12"`, topic `"lvu:abc"`, event `"chunk"`, payload `DE AD BE EF`. -/
theorem upload_binary_roundtrip_witness :
    marshalBinary
      { joinRef := [55], msgRef := [49, 50],
        topic := [108, 118, 117, 58, 97, 98, 99],
        event := [99, 104, 117, 110, 107],
        payload := [222, 173, 190, 239] } =
      [0, 1, 2, 7, 5, 55, 49, 50, 108, 118, 117, 58, 97, 98, 99,
       99, 104, 117, 110, 107, 222, 173, 190, 239] :=
  upload_binary_roundtrip
    [0, 1, 2, 7, 5, 55, 49, 50, 108, 118, 117, 58, 97, 98, 99,
     99, 104, 117, 110, 107, 222, 173, 190, 239]
    (by decide) _ (by rfl)

/-- C10: `UploadMsg.MarshalBinary` never errors; the four header-length
bytes are the header lengths reduced modulo 256; and decoding the encoded
frame recovers the original message exactly when every header is at most
255 bytes long. -/
theorem marshal_mod256_roundtrip_iff (u : UploadMsg) :
    marshalBinaryErr u = none
    ∧ (marshalBinary u).take 5 =
        [0, u.joinRef.length % 256, u.msgRef.length % 256,
         u.topic.length % 256, u.event.length % 256]
    ∧ (unmarshalBinary (marshalBinary u) = .ok u ↔
        u.joinRef.length ≤ 255 ∧ u.msgRef.length ≤ 255
        ∧ u.topic.length ≤ 255 ∧ u.event.length ≤ 255) := by
  obtain ⟨jr, mr, tp, ev, pl⟩ := u
  refine ⟨rfl, by simp [marshalBinary], ?_⟩
  rw [unmarshal_marshal_eq]
  simp only [Except.ok.injEq, UploadMsg.mk.injEq]
  constructor
  · rintro ⟨h1, h2, h3, h4, -⟩
    have c1 := congrArg List.length h1
    have c2 := congrArg List.length h2
    have c3 := congrArg List.length h3
    have c4 := congrArg List.length h4
    simp only [List.length_take, List.length_drop, List.length_append]
      at c1 c2 c3 c4
    refine ⟨by omega, by omega, by omega, by omega⟩
  · rintro ⟨b1, b2, b3, b4⟩
    rw [Nat.mod_eq_of_lt (show jr.length < 256 by omega),
      Nat.mod_eq_of_lt (show mr.length < 256 by omega),
      Nat.mod_eq_of_lt (show tp.length < 256 by omega),
      Nat.mod_eq_of_lt (show ev.length < 256 by omega)]
    have hbody : jr ++ mr ++ tp ++ ev ++ pl = jr ++ (mr ++ (tp ++ (ev ++ pl))) := by
      simp [List.append_assoc]
    refine ⟨?_, ?_, ?_, ?_, ?_⟩
    · rw [List.take_take, min_eq_left (by omega), hbody, List.take_left]
    · rw [List.drop_take, hbody, List.drop_left, List.take_take,
        min_eq_left (by omega), List.take_left]
    · rw [List.drop_take, hbody, List.drop_left, List.drop_take, List.drop_left,
        List.take_take, min_eq_left (by omega), List.take_left]
    · rw [List.drop_take, hbody, List.drop_left, List.drop_take, List.drop_left,
        List.drop_take, List.drop_left, List.take_take,
        min_eq_left (by omega), List.take_left]
    · exact List.drop_left' (by simp [List.length_append]; omega)

/-- An upload message whose join_ref header is 256 bytes long. -/
def oversizedMsg : UploadMsg :=
  { joinRef := List.replicate 256 97
    msgRef := []
    topic := []
    event := []
    payload := [] }

/-- Witness for C10 at a message whose join_ref header is 256 bytes long:
the encoder still succeeds but the frame does not decode back to the
original message. -/
theorem marshal_mod256_roundtrip_iff_witness :
    marshalBinaryErr oversizedMsg = none
    ∧ unmarshalBinary (marshalBinary oversizedMsg) ≠ .ok oversizedMsg := by
  obtain ⟨h1, -, h3⟩ := marshal_mod256_roundtrip_iff oversizedMsg
  refine ⟨h1, fun hok => ?_⟩
  have hj := (h3.mp hok).1
  rw [show oversizedMsg.joinRef = List.replicate 256 97 from rfl,
    List.length_replicate] at hj
  omega

/-! ## Text frames (`live/internal/phx/phx.go`) -/

/-- A decoded JSON document as produced by Go's `encoding/json.Unmarshal`
into `any`: null, bool, number (`float64`; its value is irrelevant here),
string, `[]any`, or `map[string]any`. -/
inductive GoVal where
  | vnull
  | vbool (b : Bool)
  | vnum (n : Int)
  | vstr (s : String)
  | varr (xs : List GoVal)
  | vobj (fields : List (String × GoVal))

/-- `phx.Msg`: the parsed inbound text frame. -/
structure Msg where
  joinRef : String
  msgRef : String
  topic : String
  event : String
  payload : List (String × GoVal)

/-- One step of the loop over `raw[:4]` in `Parse`: `nil` keeps the zero
value `""`, a string is taken as is, anything else is a type error. -/
def strOrNull : GoVal → Option String
  | .vnull => some ""
  | .vstr s => some s
  | _ => none

/-- `phx.Parse`, given the decoded JSON document.  `json.Unmarshal` into
`[]any` fails when the document is not an array (invalid JSON bytes fail
there too, before this point); then the element count, the four
string-or-null headers, and the object payload are checked in order.
The result mirrors Go's `(*Msg, error)` pair. -/
def Parse (v : GoVal) : Option Msg × Option String :=
  match v with
  | .varr [a, b, c, d, e] =>
    (match strOrNull a with
     | none => (none, some "invalid format for element 0")
     | some ja =>
       match strOrNull b with
       | none => (none, some "invalid format for element 1")
       | some jb =>
         match strOrNull c with
         | none => (none, some "invalid format for element 2")
         | some jc =>
           match strOrNull d with
           | none => (none, some "invalid format for element 3")
           | some jd =>
             match e with
             | .vobj payload =>
               (some { joinRef := ja
                       msgRef := jb
                       topic := jc
                       event := jd
                       payload := payload }, none)
             | _ => (none, some "invalid payload format, should be map"))
  | .varr _ => (none, some "phx message must contain 5 elements")
  | _ => (none, some "json: cannot unmarshal into array")

/-- Spec-side characterization ("string or null"). -/
def isStringOrNull : GoVal → Bool
  | .vnull => true
  | .vstr _ => true
  | _ => false

/-- Spec-side characterization of an acceptable frame: a JSON array of
exactly 5 elements, the first four string-or-null, the fifth an object. -/
def specGoodFrame : GoVal → Bool
  | .varr raw =>
    raw.length == 5 && (raw.take 4).all isStringOrNull &&
      (match raw.get? 4 with
       | some (GoVal.vobj _) => true
       | _ => false)
  | _ => false

theorem strOrNull_isSome (x : GoVal) : (strOrNull x).isSome = isStringOrNull x := by
  cases x <;> rfl

theorem strOrNull_vnull : strOrNull .vnull = some "" := rfl

/-- C2: `phx.Parse` succeeds exactly on 5-element arrays whose first four
elements are string-or-null and whose fifth is an object; it never returns
both a message and an error nor neither; and a null join_ref or msg_ref is
recorded as the empty string. -/
theorem parse_shape_characterization :
    (∀ v : GoVal,
      (((Parse v).1.isSome ∧ (Parse v).2 = none)
        ∨ ((Parse v).1 = none ∧ (Parse v).2.isSome))
      ∧ ((Parse v).1.isSome ↔ specGoodFrame v = true))
    ∧ (∀ b c d e : GoVal, ∀ m : Msg,
        (Parse (.varr [.vnull, b, c, d, e])).1 = some m → m.joinRef = "")
    ∧ (∀ a c d e : GoVal, ∀ m : Msg,
        (Parse (.varr [a, .vnull, c, d, e])).1 = some m → m.msgRef = "") := by
  refine ⟨?_, ?_, ?_⟩
  · intro v
    rcases v with _ | b | n | s | xs | f
    case varr =>
      rcases xs with _ | ⟨a, _ | ⟨b, _ | ⟨c, _ | ⟨d, _ | ⟨e, _ | ⟨x6, rest⟩⟩⟩⟩⟩⟩
      case cons.cons.cons.cons.cons.nil =>
        cases ha : strOrNull a <;> cases hb : strOrNull b <;>
          cases hc : strOrNull c <;> cases hd : strOrNull d <;> cases e <;>
          simp [Parse, specGoodFrame, ← strOrNull_isSome, ha, hb, hc, hd]
      all_goals simp [Parse, specGoodFrame]
    all_goals simp [Parse, specGoodFrame]
  · intro b c d e m h
    cases hb : strOrNull b <;> cases hc : strOrNull c <;>
      cases hd : strOrNull d <;> cases e <;>
      simp only [Parse, strOrNull_vnull, hb, hc, hd] at h <;>
      first
        | exact (Option.noConfusion h)
        | (injection h with h3; rw [← h3])
  · intro a c d e m h
    cases ha : strOrNull a <;> cases hc : strOrNull c <;>
      cases hd : strOrNull d <;> cases e <;>
      simp only [Parse, strOrNull_vnull, ha, hc, hd] at h <;>
      first
        | exact (Option.noConfusion h)
        | (injection h with h3; rw [← h3])

/-- Witness for C2 at the heartbeat frame
`[null, "1", "phoenix", "heartbeat", {}]`. -/
theorem parse_shape_characterization_witness :
    ((Parse (.varr [.vnull, .vstr "1", .vstr "phoenix", .vstr "heartbeat",
        .vobj []])).1.isSome
      ↔ specGoodFrame (.varr [.vnull, .vstr "1", .vstr "phoenix",
        .vstr "heartbeat", .vobj []]) = true)
    ∧ ({ joinRef := ""
         msgRef := "1"
         topic := "phoenix"
         event := "heartbeat"
         payload := [] : Msg }).joinRef = "" :=
  ⟨(parse_shape_characterization.1 (.varr [.vnull, .vstr "1", .vstr "phoenix",
      .vstr "heartbeat", .vobj []])).2,
   parse_shape_characterization.2.1 (.vstr "1") (.vstr "phoenix")
     (.vstr "heartbeat") (.vobj [])
     { joinRef := ""
       msgRef := "1"
       topic := "phoenix"
       event := "heartbeat"
       payload := [] } rfl⟩

/-! ## Outbound replies (`live/internal/phx/reply.go`) -/

/-- One hex digit of Go's `encoding/json` (lowercase `0123456789abcdef`). -/
def hexDigit (n : Nat) : Char :=
  if n < 10 then Char.ofNat (48 + n) else Char.ofNat (87 + n)

/-- Go `encoding/json` escaping of a single character, as performed by
`json.Marshal` on strings (HTML escaping on, its default): quote and
backslash get a backslash, `\n`, `\r`, `\t` their short escapes, other
control characters and `<`, `>`, `&` a `\u00XX` escape, U+2028/U+2029 a
`\u202X` escape; everything else passes through. -/
def goEscapeChar (c : Char) : String :=
  if c = '"' then "\\\""
  else if c = '\\' then "\\\\"
  else if c = '\n' then "\\n"
  else if c = '\r' then "\\r"
  else if c = '\t' then "\\t"
  else if c = '<' ∨ c = '>' ∨ c = '&' ∨ c.toNat < 0x20 then
    "\\u00" ++ String.mk [hexDigit (c.toNat / 16), hexDigit (c.toNat % 16)]
  else if c.toNat = 0x2028 ∨ c.toNat = 0x2029 then
    "\\u202" ++ String.mk [hexDigit (c.toNat % 16)]
  else String.mk [c]

/-- Go `json.Marshal` of a string value. -/
def goJSONString (s : String) : String :=
  "\"" ++ String.join (s.toList.map goEscapeChar) ++ "\""

/-- `phx.Response`: four `json.RawMessage` fields, each tagged `omitempty`
(`rendered`, `diff`, `config`, `entries`); `none` models a nil raw
message. -/
structure Response where
  rendered : Option String
  diff : Option String
  config : Option String
  entries : Option String

/-- `phx.Payload`: `{ "response": ..., "status": ... }`. -/
structure Payload where
  response : Response
  status : String

/-- `phx.Reply`: join/msg refs are nullable string pointers. -/
structure Reply where
  joinRef : Option String
  msgRef : Option String
  topic : String
  event : String
  payload : Payload

/-- `phx.NewHeartbeat`: a reply with nil join ref, the echoed msg ref,
topic `"phoenix"`, event `"phx_reply"`, and an empty ok payload. -/
def NewHeartbeat (msgRef : String) : Reply :=
  { joinRef := none
    msgRef := some msgRef
    topic := "phoenix"
    event := "phx_reply"
    payload :=
      { response :=
          { rendered := none
            diff := none
            config := none
            entries := none }
        status := "ok" } }

/-- `json.Marshal` of a `Response`: fields in struct order, `omitempty`
dropping the nil ones, raw messages emitted verbatim. -/
def marshalResponse (r : Response) : String :=
  let fields :=
    [("rendered", r.rendered), ("diff", r.diff),
     ("config", r.config), ("entries", r.entries)].filterMap
      fun kv => kv.2.map fun raw => "\"" ++ kv.1 ++ "\":" ++ raw
  "\x7b" ++ String.intercalate "," fields ++ "\x7d"

/-- `json.Marshal` of a `Payload`: both fields are emitted, in struct
order. -/
def marshalPayload (p : Payload) : String :=
  "\x7b\"response\":" ++ marshalResponse p.response ++ ",\"status\":"
    ++ goJSONString p.status ++ "\x7d"

/-- `json.Marshal` of a nullable string pointer. -/
def marshalNullableString : Option String → String
  | none => "null"
  | some s => goJSONString s

/-- `Reply.MarshalJSON`: `json.Marshal([]any{JoinRef, MsgRef, Topic,
Event, Payload})`. -/
def replyMarshalJSON (m : Reply) : String :=
  "[" ++ marshalNullableString m.joinRef ++ "," ++ marshalNullableString m.msgRef
    ++ "," ++ goJSONString m.topic ++ "," ++ goJSONString m.event ++ ","
    ++ marshalPayload m.payload ++ "]"

/-- The `heartbeat` case of `socket.dispatch` in `live/liveview.go`:
`phx.NewHeartbeat(msg.MsgRef).JSON()`. -/
def dispatchHeartbeat (m : Msg) : String :=
  replyMarshalJSON (NewHeartbeat m.msgRef)

/-- C9: the heartbeat reply marshals to the exact 5-element array
`[null,"<msg_ref>","phoenix","phx_reply",{"response":{},"status":"ok"}]`,
and the inbound frame `[null,"1","phoenix","heartbeat",{}]` produces
exactly `[null,"1","phoenix","phx_reply",{"response":{},"status":"ok"}]`. -/
theorem heartbeat_echo (ref : String) :
    replyMarshalJSON (NewHeartbeat ref) =
      "[null," ++ goJSONString ref
        ++ ",\"phoenix\",\"phx_reply\",\x7b\"response\":\x7b\x7d,\"status\":\"ok\"\x7d]"
    ∧ (∀ m : Msg,
        (Parse (.varr [.vnull, .vstr "1", .vstr "phoenix", .vstr "heartbeat",
          .vobj []])).1 = some m →
        dispatchHeartbeat m =
          "[null,\"1\",\"phoenix\",\"phx_reply\",\x7b\"response\":\x7b\x7d,\"status\":\"ok\"\x7d]") := by
  constructor
  · simp only [replyMarshalJSON, NewHeartbeat, marshalNullableString,
      marshalPayload, marshalResponse, String.append_assoc]
    rw [← String.append_assoc, ← String.append_assoc]
    congr 1
  · intro m h
    injection (show some ({ joinRef := ""
                            msgRef := "1"
                            topic := "phoenix"
                            event := "heartbeat"
                            payload := [] } : Msg) = some m from h) with h3
    rw [← h3]
    rfl

/-- Witness for C9 at msg_ref `"1"`. -/
theorem heartbeat_echo_witness :
    replyMarshalJSON (NewHeartbeat "1") =
      "[null," ++ goJSONString "1"
        ++ ",\"phoenix\",\"phx_reply\",\x7b\"response\":\x7b\x7d,\"status\":\"ok\"\x7d]"
    ∧ dispatchHeartbeat
        { joinRef := ""
          msgRef := "1"
          topic := "phoenix"
          event := "heartbeat"
          payload := [] } =
      "[null,\"1\",\"phoenix\",\"phx_reply\",\x7b\"response\":\x7b\x7d,\"status\":\"ok\"\x7d]" :=
  ⟨(heartbeat_echo "1").1,
   (heartbeat_echo "1").2
     { joinRef := ""
       msgRef := "1"
       topic := "phoenix"
       event := "heartbeat"
       payload := [] } rfl⟩

/-! ## Upload engine (`live/uploads.go`) -/

/-- `live.UploadEntry`: a file selected for upload and its metadata. -/
structure UploadEntry where
  cancelled : Bool
  lastModified : Int
  name : String
  size : Int
  type : String
  done : Bool
  preflighted : Bool
  progress : Int
  ref : String
  uploadRef : String
  uuid : String
  valid : Bool
  errors : List String
  deriving Repr, DecidableEq

/-- `live.UploadConstraints`. -/
structure UploadConstraints where
  accept : List String
  maxEntries : Int
  maxFileSize : Int
  chunkSize : Int
  deriving Repr, DecidableEq

/-- `live.UploadConfig`; `constraints` models the embedded
`UploadConstraints` (whose fields Go promotes onto the config). -/
structure UploadConfig where
  name : String
  entries : List UploadEntry
  ref : String
  errors : List String
  autoUpload : Bool
  constraints : UploadConstraints
  deriving Repr, DecidableEq

/-- `UploadConfig.validateType`.  `extsOf` stands for the Go standard
library's `mime.ExtensionsByType` (the table of canonical extensions for a
MIME type; environment-dependent, hence a parameter). -/
def validateType (extsOf : String → List String) (uc : UploadConfig)
    (mimeType : String) : Bool :=
  uc.constraints.accept.any fun t =>
    t == mimeType || (extsOf mimeType).any fun ext => t == ext

/-- `UploadConfig.validateSize`. -/
def validateSize (uc : UploadConfig) (size : Int) : Bool :=
  size ≤ uc.constraints.maxFileSize

/-- `UploadConfig.validateEntry`: checks cancellation, size, then type, and
appends the corresponding error string to the entry; returns the updated
entry and the validity flag. -/
def validateEntry (extsOf : String → List String) (uc : UploadConfig)
    (entry : UploadEntry) : UploadEntry × Bool :=
  if entry.cancelled then (entry, false)
  else if ¬ validateSize uc entry.size then
    ({ entry with errors := entry.errors
        ++ ["file size exceeds max of " ++ toString uc.constraints.maxFileSize] },
     false)
  else if ¬ validateType extsOf uc entry.type then
    ({ entry with errors := entry.errors
        ++ ["file type " ++ entry.type ++ " is not allowed"] },
     false)
  else (entry, true)

/-- The client-supplied fields of one entry in the `uploads` submap
handed to `UploadConfig.AddEntries`. -/
structure EntryInput where
  lastModified : Int
  name : String
  size : Int
  type : String
  ref : String
  deriving Repr, DecidableEq

/-- `UploadConfig.AddEntries`: builds an `UploadEntry` per input (fresh
UUID via `uuids`, abstracting `uuid.NewString`), validates each, appends
`"max entries exceeded: <n>"` to the config errors when more inputs than
`MaxEntries` arrive, and replaces the config's entry list. -/
def AddEntries (extsOf : String → List String) (uuids : Nat → String)
    (uc : UploadConfig) (inputs : List EntryInput) : UploadConfig :=
  let es := inputs.enum.map fun p =>
    let e := p.2
    let entry : UploadEntry :=
      { cancelled := false
        lastModified := e.lastModified
        name := e.name
        size := e.size
        type := e.type
        done := false
        preflighted := false
        progress := 0
        ref := e.ref
        uploadRef := uc.ref
        uuid := uuids p.1
        valid := false
        errors := [] }
    let v := validateEntry extsOf uc entry
    { v.1 with valid := v.2 }
  let errs :=
    if uc.constraints.maxEntries < (inputs.length : Int) then
      uc.errors ++ ["max entries exceeded: " ++ toString uc.constraints.maxEntries]
    else uc.errors
  { uc with entries := es, errors := errs }

/-- Session state relevant to the upload engine: the per-name config map
(modelled as an association list) and the active upload ref. -/
structure SocketState where
  uploadConfigs : List (String × UploadConfig)
  activeUploadRef : String
  deriving Repr, DecidableEq

/-- `filepath.Join` for two nonempty components free of separators and
dot segments (the only use here: tmp dir, `golive-<ref>`, UUID). -/
def joinPath (a b : String) : String := a ++ "/" ++ b

/-- `live.ConsumeUploadedEntriesMeta`. -/
structure ConsumeUploadedEntriesMeta where
  path : String

/-- The entry loop of `ConsumeUploadedEntries`: panics (modelled as
`.error`) at the first entry that is not done, otherwise yields the
callback results in entry order. -/
def consumeEntriesLoop {α : Type} (f : ConsumeUploadedEntriesMeta → UploadEntry → α)
    (tdir : String) : List UploadEntry → Except String (List α)
  | [] => .ok []
  | e :: es =>
    if ¬ e.done then .error "cannot consume entries that are not fully uploaded"
    else
      match consumeEntriesLoop f tdir es with
      | .error s => .error s
      | .ok rest => .ok (f { path := joinPath tdir e.uuid } e :: rest)

/-- Replace the entry list of the (first) config bound to `name`. -/
def setConfigEntries (name : String) (es : List UploadEntry) :
    List (String × UploadConfig) → List (String × UploadConfig)
  | [] => []
  | (k, v) :: rest =>
    if k == name then (k, { v with entries := es }) :: rest
    else (k, v) :: setConfigEntries name es rest

/-- `live.ConsumeUploadedEntries` on a live socket: looks up the config by
name (a missing config returns `nil` results), stages paths under
`<tmp>/golive-<activeUploadRef>/`, panics (`.error`) on any entry that is
not done, and clears the config's entries afterwards. -/
def ConsumeUploadedEntries {α : Type} (tmpDir : String) (st : SocketState)
    (configName : String) (f : ConsumeUploadedEntriesMeta → UploadEntry → α) :
    Except String (List α × SocketState) :=
  match List.lookup configName st.uploadConfigs with
  | none => .ok ([], st)
  | some uc =>
    let tdir := joinPath tmpDir ("golive-" ++ st.activeUploadRef)
    match consumeEntriesLoop f tdir uc.entries with
    | .error s => .error s
    | .ok res =>
      .ok (res, { st with
        uploadConfigs := setConfigEntries configName [] st.uploadConfigs })

/-- The config lookup by ref in the `progress`/`allow_upload` dispatch
cases: scan the config map for a config whose `Ref` matches. -/
def findConfigByRef (ref : String) : List (String × UploadConfig) → Option UploadConfig
  | [] => none
  | (_, u) :: rest => if u.ref == ref then some u else findConfigByRef ref rest

/-- The entry loop of the `progress` dispatch case: the first entry whose
ref matches gets its progress set and `Done := (progress == 100)`; a
missing entry leaves the list unchanged. -/
def updateEntryProgress (entryRef : String) (progress : Int) :
    List UploadEntry → List UploadEntry
  | [] => []
  | e :: es =>
    if e.ref == entryRef then
      { e with progress := progress, done := progress == 100 } :: es
    else e :: updateEntryProgress entryRef progress es

/-- Apply `g` to the (first) config whose `Ref` is `ref` (the Go code
mutates the found config through its pointer). -/
def updateConfigByRef (ref : String) (g : UploadConfig → UploadConfig) :
    List (String × UploadConfig) → List (String × UploadConfig)
  | [] => []
  | (k, u) :: rest =>
    if u.ref == ref then (k, g u) :: rest
    else (k, u) :: updateConfigByRef ref g rest

/-- The `progress` case of `socket.dispatch` (`live/liveview.go`): on a
missing config ref, an error; otherwise update the matching entry (if
any), then reply with the render diff.  `renderDiff` abstracts the
successful `renderToTree` + `treeDiff` result carried by the normal
`NewReplyDiff` reply. -/
def dispatchProgress (st : SocketState) (ref entryRef : String) (progress : Int)
    (renderDiff : String) : Except String (SocketState × String) :=
  match findConfigByRef ref st.uploadConfigs with
  | none => .error ("no upload config found for ref: " ++ ref)
  | some _ =>
    let g := fun u => { u with entries := updateEntryProgress entryRef progress u.entries }
    let st' := { st with uploadConfigs := updateConfigByRef ref g st.uploadConfigs }
    .ok (st', renderDiff)

theorem consumeLoop_error_of_not_done {α : Type}
    (f : ConsumeUploadedEntriesMeta → UploadEntry → α) (tdir : String)
    (es : List UploadEntry) (h : ∃ e ∈ es, e.done = false) :
    consumeEntriesLoop f tdir es =
      .error "cannot consume entries that are not fully uploaded" := by
  induction es with
  | nil => simp at h
  | cons e es ih =>
    by_cases hd : e.done
    · obtain ⟨x, hx, hxd⟩ := h
      rcases List.mem_cons.mp hx with rfl | hx2
      · rw [hd] at hxd; cases hxd
      · rw [consumeEntriesLoop, if_neg (by simp [hd]), ih ⟨x, hx2, hxd⟩]
    · rw [consumeEntriesLoop, if_pos (by simp [hd])]

theorem consumeLoop_ok_of_all_done {α : Type}
    (f : ConsumeUploadedEntriesMeta → UploadEntry → α) (tdir : String)
    (es : List UploadEntry) (h : ∀ e ∈ es, e.done = true) :
    consumeEntriesLoop f tdir es =
      .ok (es.map fun e => f { path := joinPath tdir e.uuid } e) := by
  induction es with
  | nil => rfl
  | cons e es ih =>
    rw [consumeEntriesLoop, if_neg (by simp [h e (by simp)]),
      ih fun x hx => h x (by simp [hx])]
    rfl

/-- C5: for a socket whose upload config of the given name exists,
`ConsumeUploadedEntries` panics when any entry is not done; otherwise it
yields the callback results once per entry, in order, with staged path
`<tmp>/golive-<activeUploadRef>/<uuid>`, and clears the config's
entries. -/
theorem consume_uploaded_entries_spec {α : Type} (tmpDir : String)
    (st : SocketState) (name : String)
    (f : ConsumeUploadedEntriesMeta → UploadEntry → α) (uc : UploadConfig)
    (huc : List.lookup name st.uploadConfigs = some uc) :
    ((∃ e ∈ uc.entries, e.done = false) →
      ConsumeUploadedEntries tmpDir st name f =
        .error "cannot consume entries that are not fully uploaded")
    ∧ ((∀ e ∈ uc.entries, e.done = true) →
      ConsumeUploadedEntries tmpDir st name f =
        .ok (uc.entries.map fun e =>
              f { path := tmpDir ++ "/golive-" ++ st.activeUploadRef
                    ++ "/" ++ e.uuid } e,
            { st with uploadConfigs := setConfigEntries name [] st.uploadConfigs })) := by
  have hpath : ∀ u : String,
      joinPath (joinPath tmpDir ("golive-" ++ st.activeUploadRef)) u
        = tmpDir ++ "/golive-" ++ st.activeUploadRef ++ "/" ++ u := by
    intro u
    simp only [joinPath, String.append_assoc]
    congr 1
  constructor
  · intro hex
    rw [ConsumeUploadedEntries, huc]
    dsimp only []
    rw [consumeLoop_error_of_not_done f _ uc.entries hex]
  · intro hall
    rw [ConsumeUploadedEntries, huc]
    dsimp only []
    rw [consumeLoop_ok_of_all_done f _ uc.entries hall]
    simp only [hpath]

/-- A done entry staged as `u1`. -/
def doneEntry : UploadEntry :=
  { cancelled := false
    lastModified := 0
    name := "a.jpg"
    size := 10
    type := "image/jpeg"
    done := true
    preflighted := true
    progress := 100
    ref := "a"
    uploadRef := "r"
    uuid := "u1"
    valid := true
    errors := [] }

/-- An upload config holding the single done entry. -/
def doneConfig : UploadConfig :=
  { name := "photos"
    entries := [doneEntry]
    ref := "r"
    errors := []
    autoUpload := false
    constraints :=
      { accept := [".jpg"]
        maxEntries := 10
        maxFileSize := 100
        chunkSize := 1024 } }

/-- A socket state holding `doneConfig` under name `"photos"`. -/
def doneState : SocketState :=
  { uploadConfigs := [("photos", doneConfig)]
    activeUploadRef := "r" }

/-- Witness for C5: consuming the all-done config yields one staged path
`/tmp/golive-r/u1` and clears the entries. -/
theorem consume_uploaded_entries_spec_witness :
    ConsumeUploadedEntries "/tmp" doneState "photos"
        (fun meta _ => meta.path) =
      .ok (["/tmp/golive-r/u1"],
        { doneState with
            uploadConfigs := setConfigEntries "photos" [] doneState.uploadConfigs }) := by
  have h := (consume_uploaded_entries_spec "/tmp" doneState "photos"
    (fun meta _ => meta.path) doneConfig rfl).2 (by decide)
  exact h

theorem validateEntry_fst_size (extsOf : String → List String)
    (uc : UploadConfig) (en : UploadEntry) :
    (validateEntry extsOf uc en).1.size = en.size := by
  rw [validateEntry]; split_ifs <;> rfl

theorem validateEntry_fst_type (extsOf : String → List String)
    (uc : UploadConfig) (en : UploadEntry) :
    (validateEntry extsOf uc en).1.type = en.type := by
  rw [validateEntry]; split_ifs <;> rfl

/-- An entry that is too large or of an unaccepted MIME type comes out of
`validateEntry` invalid and with an error string recorded. -/
theorem validateEntry_invalid (extsOf : String → List String)
    (uc : UploadConfig) (en : UploadEntry)
    (hcan : en.cancelled = false) (herr : en.errors = [])
    (hbad : uc.constraints.maxFileSize < en.size
      ∨ (en.type ∉ uc.constraints.accept
          ∧ ∀ ext ∈ extsOf en.type, ext ∉ uc.constraints.accept)) :
    (validateEntry extsOf uc en).2 = false
    ∧ (validateEntry extsOf uc en).1.errors ≠ [] := by
  by_cases hs : validateSize uc en.size = true
  · by_cases ht : validateType extsOf uc en.type = true
    · exfalso
      simp only [validateSize, decide_eq_true_eq] at hs
      simp only [validateType, List.any_eq_true, Bool.or_eq_true,
        beq_iff_eq] at ht
      rcases hbad with hbig | ⟨hnomime, hnoext⟩
      · omega
      · obtain ⟨t, htmem, hor⟩ := ht
        rcases hor with rfl | ⟨x, hx, rfl⟩
        · exact hnomime htmem
        · exact hnoext _ hx htmem
    · rw [Bool.not_eq_true] at ht
      constructor <;> simp [validateEntry, hcan, hs, ht, herr]
  · rw [Bool.not_eq_true] at hs
    constructor <;> simp [validateEntry, hcan, hs, herr]

/-- C6: every entry added via `AddEntries` whose size exceeds
`MaxFileSize`, or whose MIME neither equals any accept-list item nor has a
canonical extension in the accept list, ends invalid with at least one
error recorded; and `"max entries exceeded: <n>"` is appended to the
config's errors exactly when more inputs than `MaxEntries` are added. -/
theorem addEntries_validation (extsOf : String → List String)
    (uuids : Nat → String) (uc : UploadConfig) (inputs : List EntryInput) :
    (∀ e ∈ (AddEntries extsOf uuids uc inputs).entries,
      (uc.constraints.maxFileSize < e.size
        ∨ (e.type ∉ uc.constraints.accept
            ∧ ∀ ext ∈ extsOf e.type, ext ∉ uc.constraints.accept)) →
      e.valid = false ∧ e.errors ≠ [])
    ∧ ((AddEntries extsOf uuids uc inputs).errors =
          uc.errors ++ ["max entries exceeded: " ++ toString uc.constraints.maxEntries]
        ↔ uc.constraints.maxEntries < (inputs.length : Int)) := by
  constructor
  · intro e he hbad
    simp only [AddEntries, List.mem_map] at he
    obtain ⟨p, hp, rfl⟩ := he
    dsimp only [] at hbad ⊢
    rw [validateEntry_fst_size, validateEntry_fst_type] at hbad
    exact validateEntry_invalid extsOf uc _ rfl rfl hbad
  · simp only [AddEntries]
    by_cases hc : uc.constraints.maxEntries < (inputs.length : Int)
    · simp [hc]
    · simp only [hc, if_false, iff_false]
      intro hcontra
      have := congrArg List.length hcontra
      simp at this

/-- The table of canonical extensions that Go's `mime` package reports for
`image/jpeg` (no system table assumed for other types). -/
def extsOfJpeg : String → List String :=
  fun m => if m == "image/jpeg" then [".jpe", ".jpeg", ".jpg"] else []

/-- The upload config of the spec's seed scenario 6: `accept=[".jpg"]`,
`max_file_size=100`, `max_entries=1`. -/
def photoConfig : UploadConfig :=
  { name := "photos"
    entries := []
    ref := "ref6"
    errors := []
    autoUpload := false
    constraints :=
      { accept := [".jpg"]
        maxEntries := 1
        maxFileSize := 100
        chunkSize := 1024 } }

/-- A JPEG of size 101 (over the limit). -/
def bigInput : EntryInput :=
  { lastModified := 0
    name := "big.jpg"
    size := 101
    type := "image/jpeg"
    ref := "a" }

/-- A text file of size 50 (MIME not accepted). -/
def textInput : EntryInput :=
  { lastModified := 0
    name := "notes.txt"
    size := 50
    type := "text/plain"
    ref := "b" }

/-- The entry that `AddEntries` builds for `bigInput`. -/
def bigEntryOut : UploadEntry :=
  { cancelled := false
    lastModified := 0
    name := "big.jpg"
    size := 101
    type := "image/jpeg"
    done := false
    preflighted := false
    progress := 0
    ref := "a"
    uploadRef := "ref6"
    uuid := "u"
    valid := false
    errors := ["file size exceeds max of 100"] }

/-- Witness for C6 at the spec's seed scenario 6. -/
theorem addEntries_validation_witness :
    bigEntryOut.valid = false ∧ bigEntryOut.errors ≠ []
    ∧ (AddEntries extsOfJpeg (fun _ => "u") photoConfig [bigInput, textInput]).errors
        = photoConfig.errors
          ++ ["max entries exceeded: " ++ toString photoConfig.constraints.maxEntries] := by
  obtain ⟨h1, h2⟩ :=
    addEntries_validation extsOfJpeg (fun _ => "u") photoConfig [bigInput, textInput]
  have hb := h1 bigEntryOut (by decide) (Or.inl (by decide))
  exact ⟨hb.1, hb.2, h2.mpr (by decide)⟩

theorem updateEntryProgress_no_match (entryRef : String) (p : Int)
    (es : List UploadEntry) (h : ∀ e ∈ es, e.ref ≠ entryRef) :
    updateEntryProgress entryRef p es = es := by
  induction es with
  | nil => rfl
  | cons e es ih =>
    rw [updateEntryProgress, if_neg (by simp [h e (by simp)]),
      ih fun x hx => h x (by simp [hx])]

theorem updateConfigByRef_fixed (ref : String) (g : UploadConfig → UploadConfig)
    (l : List (String × UploadConfig)) (uc : UploadConfig)
    (hfind : findConfigByRef ref l = some uc) (hg : g uc = uc) :
    updateConfigByRef ref g l = l := by
  induction l with
  | nil => simp [findConfigByRef] at hfind
  | cons kv rest ih =>
    obtain ⟨k, u⟩ := kv
    by_cases hr : u.ref == ref
    · rw [findConfigByRef, if_pos hr] at hfind
      injection hfind with hfind
      rw [updateConfigByRef, if_pos hr, hfind, hg]
    · rw [findConfigByRef, if_neg hr] at hfind
      rw [updateConfigByRef, if_neg hr, ih hfind]

/-- C8 (amended): a `progress` frame whose `ref` matches no upload config
is an error; but when the config exists and `entry_ref` matches none of
its entries, the frame is not an error: no entry is modified and the
normal render-diff reply is returned with the state unchanged. -/
theorem progress_dispatch_behavior (st : SocketState) (ref entryRef : String)
    (p : Int) (d : String) :
    (findConfigByRef ref st.uploadConfigs = none →
      dispatchProgress st ref entryRef p d =
        .error ("no upload config found for ref: " ++ ref))
    ∧ (∀ uc : UploadConfig, findConfigByRef ref st.uploadConfigs = some uc →
        (∀ e ∈ uc.entries, e.ref ≠ entryRef) →
        updateEntryProgress entryRef p uc.entries = uc.entries
        ∧ dispatchProgress st ref entryRef p d = .ok (st, d)) := by
  constructor
  · intro hnone
    rw [dispatchProgress, hnone]
  · intro uc hfind hmiss
    have hup := updateEntryProgress_no_match entryRef p uc.entries hmiss
    refine ⟨hup, ?_⟩
    rw [dispatchProgress, hfind]
    dsimp only []
    rw [updateConfigByRef_fixed ref _ st.uploadConfigs uc hfind (by rw [hup])]

/-- The entry of ref `"a"` known to the sample config. -/
def progressEntry : UploadEntry :=
  { cancelled := false
    lastModified := 0
    name := "a.jpg"
    size := 10
    type := "image/jpeg"
    done := false
    preflighted := false
    progress := 0
    ref := "a"
    uploadRef := "r"
    uuid := "u1"
    valid := true
    errors := [] }

/-- A config of ref `"r"` holding only the entry of ref `"a"`. -/
def progressConfig : UploadConfig :=
  { name := "photos"
    entries := [progressEntry]
    ref := "r"
    errors := []
    autoUpload := false
    constraints :=
      { accept := [".jpg"]
        maxEntries := 10
        maxFileSize := 100
        chunkSize := 1024 } }

/-- A socket state holding `progressConfig`. -/
def progressState : SocketState :=
  { uploadConfigs := [("photos", progressConfig)]
    activeUploadRef := "r" }

/-- Counterexample to C8 as stated: a `progress` frame whose `ref` matches
the existing config `"r"` but whose `entry_ref` `"b"` matches no entry is
answered with a normal render-diff reply, not an error. -/
theorem progress_missing_entry_not_error :
    findConfigByRef "r" progressState.uploadConfigs = some progressConfig
    ∧ (∀ e ∈ progressConfig.entries, e.ref ≠ "b")
    ∧ dispatchProgress progressState "r" "b" 50 "diff" = .ok (progressState, "diff")
    ∧ ∀ s : String, dispatchProgress progressState "r" "b" 50 "diff" ≠ .error s := by
  refine ⟨rfl, by decide, rfl, ?_⟩
  intro s h
  rw [show dispatchProgress progressState "r" "b" 50 "diff"
      = .ok (progressState, "diff") from rfl] at h
  cases h

/-- Witness for the amended C8 at the sample state: missing config ref
errors, missing entry ref replies normally. -/
theorem progress_dispatch_behavior_witness :
    dispatchProgress progressState "missing" "b" 50 "diff" =
      .error ("no upload config found for ref: " ++ "missing")
    ∧ updateEntryProgress "b" 50 progressConfig.entries = progressConfig.entries
    ∧ dispatchProgress progressState "r" "b" 50 "diff" = .ok (progressState, "diff") := by
  obtain ⟨h1, h2⟩ := progress_dispatch_behavior progressState "missing" "b" 50 "diff"
  obtain ⟨-, h4⟩ := progress_dispatch_behavior progressState "r" "b" 50 "diff"
  have h5 := h4 progressConfig rfl (by decide)
  exact ⟨h1 rfl, h5.1, h5.2⟩

/-! ## Template trees (`internal/tmpl/tree.go`)

`tmpl.Tree` holds `Statics`, `Dynamics` (whose elements are strings,
subtrees, or — inside a range tree — per-iteration inner `[]any` slices),
the `ExcludeStatics` flag set by diffing, and the range bookkeeping
(`isRange`, `rangeStep`).  The `Title`/`Events` fields ride along for
serialization only and play no part in the claims below, so they are not
modelled.  `skipRender{}` sentinels produced by `diff` are the `skip`
constructor. -/

mutual

inductive Tree : Type where
  | mk (statics : List String) (dynamics : List Dyn) (excludeStatics : Bool)
      (isRange : Bool) (rangeStep : Nat) : Tree

inductive Dyn : Type where
  | str (s : String) : Dyn
  | sub (t : Tree) : Dyn
  | arr (row : List Dyn) : Dyn
  | skip : Dyn

end

def Tree.statics : Tree → List String
  | .mk s _ _ _ _ => s

def Tree.dynamics : Tree → List Dyn
  | .mk _ d _ _ _ => d

def Tree.excludeStatics : Tree → Bool
  | .mk _ _ x _ _ => x

def Tree.isRange : Tree → Bool
  | .mk _ _ _ r _ => r

def Tree.rangeStep : Tree → Nat
  | .mk _ _ _ _ n => n

/-- `tmpl.NewTree`: statics `[""]`, no dynamics. -/
def NewTree : Tree := .mk [""] [] false false 0

/-- The fresh range subtree built by `Tree.AppendRangeSub`. -/
def rangeTree0 : Tree := .mk [""] [] false true 0

/-- Inner-slice length used by `nDyn` for a range tree's first element.
Go type-asserts `[]any` here and would panic on anything else; the
non-`arr` constructors are unreachable for trees built by the engine. -/
def rowLen : Dyn → Nat
  | .arr row => row.length
  | _ => 0

/-- `Tree.nDyn`: the number of dynamics; in a range tree, the length of
the first inner slice. -/
def Tree.nDyn (t : Tree) : Nat :=
  if !t.isRange || t.dynamics.length == 0 then t.dynamics.length
  else
    match t.dynamics with
    | [] => 0
    | d :: _ => rowLen d

/-- `Tree.Valid`: `nDyn + 1 == len(Statics)` (`true` models a nil error). -/
def Tree.valid (t : Tree) : Bool := t.nDyn + 1 == t.statics.length

/-- `Statics[len-1] += text` of `AppendStatic`. -/
def concatLast : List String → String → List String
  | [], _ => []
  | [a], s => [a ++ s]
  | a :: rest, s => a :: concatLast rest s

/-- `Tree.AppendStatic`: ignored past the first range iteration; merged
into the last static when one is pending; appended otherwise. -/
def Tree.appendStatic (t : Tree) (text : String) : Tree :=
  if t.rangeStep > 0 then t
  else if t.statics.length > t.nDyn then
    .mk (concatLast t.statics text) t.dynamics t.excludeStatics t.isRange t.rangeStep
  else
    .mk (t.statics ++ [text]) t.dynamics t.excludeStatics t.isRange t.rangeStep

/-- Append `d` into an inner range row (`append(dyn, d)` after the `[]any`
type assertion; non-`arr` is Go's panic case, unreachable). -/
def pushRow (d : Dyn) : Dyn → Dyn
  | .arr row => .arr (row ++ [d])
  | x => x

/-- `t.Dynamics[i] = f(t.Dynamics[i])`; out of range leaves the list
unchanged (Go would panic, unreachable under the engine's call
protocol). -/
def modifyIdx : List Dyn → Nat → (Dyn → Dyn) → List Dyn
  | [], _, _ => []
  | x :: xs, 0, f => f x :: xs
  | x :: xs, n + 1, f => x :: modifyIdx xs n f

/-- `Tree.appendDynamic`: non-range trees pair the dynamic with an empty
placeholder static; range trees append into the current iteration's inner
slice (making room first when needed) and record a placeholder static
only during the first iteration. -/
def Tree.appendDynamic (t : Tree) (d : Dyn) : Tree :=
  if !t.isRange then
    .mk (t.statics ++ [""]) (t.dynamics ++ [d]) t.excludeStatics t.isRange t.rangeStep
  else
    let ds0 := if t.rangeStep ≥ t.dynamics.length then t.dynamics ++ [.arr []]
               else t.dynamics
    let ds := modifyIdx ds0 t.rangeStep (pushRow d)
    let ss := if t.rangeStep == 0 then t.statics ++ [""] else t.statics
    .mk ss ds t.excludeStatics t.isRange t.rangeStep

/-- `Tree.IncRangeStep`: only advances the cursor. -/
def Tree.incRangeStep (t : Tree) : Tree :=
  .mk t.statics t.dynamics t.excludeStatics t.isRange (t.rangeStep + 1)

/-- `Tree.AppendSub`, as observed by the parent node: a fresh subtree is
appended as a dynamic (the returned pointer then receives the child's own
builder calls). -/
def Tree.appendSub (t : Tree) : Tree := t.appendDynamic (.sub NewTree)

/-- One builder call of the fuzzable set for a non-range tree. -/
inductive BuildOp where
  | static (s : String)
  | dyn (s : String)
  | subOp

def applyOp (t : Tree) : BuildOp → Tree
  | .static s => t.appendStatic s
  | .dyn s => t.appendDynamic (.str s)
  | .subOp => t.appendSub

def runOps (t : Tree) (ops : List BuildOp) : Tree := ops.foldl applyOp t

/-- One range iteration appends its row of dynamics, then the template
calls `IncRangeStep`. -/
def appendRow (t : Tree) (row : List String) : Tree :=
  row.foldl (fun acc s => acc.appendDynamic (.str s)) t

def runRangeRows (t : Tree) (rows : List (List String)) : Tree :=
  rows.foldl (fun acc row => (appendRow acc row).incRangeStep) t

theorem concatLast_length (l : List String) (s : String) :
    (concatLast l s).length = l.length := by
  induction l with
  | nil => rfl
  | cons a rest ih =>
    cases rest with
    | nil => rfl
    | cons b rest2 => simp [concatLast, ih]

/-- The alternating-layout invariant of a non-range tree. -/
def altInv (t : Tree) : Prop :=
  t.isRange = false ∧ t.statics.length = t.dynamics.length + 1

theorem appendDynamic_nonrange (ss : List String) (ds : List Dyn) (x : Bool)
    (n : Nat) (d : Dyn) :
    Tree.appendDynamic (Tree.mk ss ds x false n) d =
      Tree.mk (ss ++ [""]) (ds ++ [d]) x false n := by
  rw [Tree.appendDynamic]
  rfl

theorem altInv_applyOp (t : Tree) (op : BuildOp) (h : altInv t) :
    altInv (applyOp t op) := by
  obtain ⟨ss, ds, x, r, n⟩ := t
  obtain ⟨hr, hlen⟩ := h
  simp only [Tree.isRange] at hr
  subst hr
  simp only [Tree.statics, Tree.dynamics] at hlen
  have hnd : Tree.nDyn (Tree.mk ss ds x false n) = ds.length := by
    simp [Tree.nDyn, Tree.isRange, Tree.dynamics]
  cases op with
  | static s =>
    rw [applyOp, Tree.appendStatic]
    by_cases h0 : (Tree.mk ss ds x false n).rangeStep > 0
    · rw [if_pos h0]
      exact ⟨rfl, by simp [Tree.statics, Tree.dynamics, hlen]⟩
    · rw [if_neg h0, if_pos (by
        simp only [hnd, Tree.statics]
        omega)]
      exact ⟨rfl, by simp [Tree.statics, Tree.dynamics, concatLast_length, hlen]⟩
  | dyn s =>
    rw [applyOp, appendDynamic_nonrange]
    exact ⟨rfl, by simp [Tree.statics, Tree.dynamics, hlen]⟩
  | subOp =>
    rw [applyOp, Tree.appendSub, appendDynamic_nonrange]
    exact ⟨rfl, by simp [Tree.statics, Tree.dynamics, hlen]⟩

theorem altInv_runOps (ops : List BuildOp) (t : Tree) (h : altInv t) :
    altInv (runOps t ops) := by
  induction ops generalizing t with
  | nil => exact h
  | cons op ops ih => exact ih _ (altInv_applyOp t op h)

theorem incRangeStep_mk (ss : List String) (ds : List Dyn) (x r : Bool) (n : Nat) :
    Tree.incRangeStep (Tree.mk ss ds x r n) = Tree.mk ss ds x r (n + 1) := rfl

theorem modifyIdx_append_last (ds : List Dyn) (y : Dyn) (f : Dyn → Dyn) :
    modifyIdx (ds ++ [y]) ds.length f = ds ++ [f y] := by
  induction ds with
  | nil => rfl
  | cons x xs ih => simp [modifyIdx, ih]

/-- Mid-iteration shape of `appendRow`: with the write cursor on the open
last row, each appended dynamic lands in that row, and statics grow only
during the first iteration. -/
theorem appendRow_mid (row : List String) (ss : List String) (ds : List Dyn)
    (r : List Dyn) :
    appendRow (Tree.mk ss (ds ++ [Dyn.arr r]) false true ds.length) row =
      Tree.mk (if ds.length == 0 then ss ++ List.replicate row.length "" else ss)
        (ds ++ [Dyn.arr (r ++ row.map Dyn.str)]) false true ds.length := by
  induction row generalizing ss r with
  | nil =>
    simp [appendRow]
  | cons s rest ih =>
    have hge : ¬ (Tree.mk ss (ds ++ [Dyn.arr r]) false true ds.length).rangeStep
        ≥ (Tree.mk ss (ds ++ [Dyn.arr r]) false true ds.length).dynamics.length := by
      simp [Tree.rangeStep, Tree.dynamics]
    have hstep : Tree.appendDynamic
        (Tree.mk ss (ds ++ [Dyn.arr r]) false true ds.length) (.str s) =
        Tree.mk (if ds.length == 0 then ss ++ [""] else ss)
          (ds ++ [Dyn.arr (r ++ [.str s])]) false true ds.length := by
      rw [Tree.appendDynamic]
      rw [if_neg (by simp [Tree.isRange])]
      rw [if_neg hge]
      dsimp only [Tree.dynamics, Tree.statics, Tree.excludeStatics,
        Tree.isRange, Tree.rangeStep]
      rw [modifyIdx_append_last]
      rfl
    show appendRow (Tree.appendDynamic _ (.str s)) rest = _
    rw [hstep, ih]
    by_cases h0 : ds.length == 0
    · simp only [h0, if_true]
      rw [List.append_assoc, List.append_assoc]
      rfl
    · simp only [h0, if_false]
      rw [List.append_assoc]
      rfl

/-- Entering an iteration (cursor equal to the number of closed rows), the
first dynamic opens a fresh row; the whole row lands there. -/
theorem appendRow_iter (row : List String) (ss : List String) (ds : List Dyn)
    (hrow : row ≠ []) :
    appendRow (Tree.mk ss ds false true ds.length) row =
      Tree.mk (if ds.length == 0 then ss ++ List.replicate row.length "" else ss)
        (ds ++ [Dyn.arr (row.map Dyn.str)]) false true ds.length := by
  cases row with
  | nil => exact absurd rfl hrow
  | cons s rest =>
    have hge : (Tree.mk ss ds false true ds.length).rangeStep
        ≥ (Tree.mk ss ds false true ds.length).dynamics.length := by
      simp [Tree.rangeStep, Tree.dynamics]
    have hstep : Tree.appendDynamic (Tree.mk ss ds false true ds.length) (.str s) =
        Tree.mk (if ds.length == 0 then ss ++ [""] else ss)
          (ds ++ [Dyn.arr [.str s]]) false true ds.length := by
      rw [Tree.appendDynamic]
      rw [if_neg (by simp [Tree.isRange])]
      rw [if_pos hge]
      dsimp only [Tree.dynamics, Tree.statics, Tree.excludeStatics,
        Tree.isRange, Tree.rangeStep]
      rw [modifyIdx_append_last]
      rfl
    show appendRow (Tree.appendDynamic _ (.str s)) rest = _
    rw [hstep, appendRow_mid]
    by_cases h0 : ds.length == 0
    · simp only [h0, if_true]
      rw [List.append_assoc]
      rfl
    · simp only [h0, if_false]
      rfl

theorem runRangeRows_inv (k : Nat) (rest : List (List String))
    (hrest : ∀ r ∈ rest, r.length = k) (hk : 0 < k) (ss : List String)
    (ds : List Dyn) (hds : ds ≠ []) :
    runRangeRows (Tree.mk ss ds false true ds.length) rest =
      Tree.mk ss (ds ++ rest.map fun row => Dyn.arr (row.map Dyn.str))
        false true (ds.length + rest.length) := by
  induction rest generalizing ds with
  | nil => simp [runRangeRows]
  | cons row rest2 ih =>
    have hrow : row ≠ [] := by
      have := hrest row (by simp)
      intro hcon; rw [hcon] at this; simp at this; omega
    show runRangeRows ((appendRow _ row).incRangeStep) rest2 = _
    rw [appendRow_iter row ss ds hrow,
      if_neg (by simp [List.length_eq_zero, hds])]
    rw [incRangeStep_mk]
    rw [show ds.length + 1 = (ds ++ [Dyn.arr (row.map Dyn.str)]).length by simp]
    rw [ih (fun r hr => hrest r (by simp [hr])) _ (by simp)]
    congr 1
    · simp [List.append_assoc]
    · simp
      omega

/-- With `k = 0` every iteration appends nothing: the tree keeps its
statics and (empty) dynamics, only the cursor advances. -/
theorem runRangeRows_empty_rows (rows : List (List String))
    (hrows : ∀ r ∈ rows, r = ([] : List String)) (ss : List String) (n : Nat) :
    runRangeRows (Tree.mk ss [] false true n) rows =
      Tree.mk ss [] false true (n + rows.length) := by
  induction rows generalizing n with
  | nil => simp [runRangeRows]
  | cons row rest ih =>
    have hrow : row = [] := hrows row (by simp)
    subst hrow
    show runRangeRows ((appendRow _ []).incRangeStep) rest = _
    rw [show appendRow (Tree.mk ss [] false true n) [] =
      Tree.mk ss [] false true n from rfl]
    rw [show Tree.incRangeStep (Tree.mk ss [] false true n) =
      Tree.mk ss [] false true (n + 1) from rfl]
    rw [ih (fun r hr => hrows r (by simp [hr])) (n + 1)]
    simp only [List.length_cons]
    congr 1
    omega

/-- C3: tree validity is an invariant of construction.  Any sequence of
`AppendStatic` / `AppendDynamic` / `AppendSub` on a fresh non-range tree
keeps `Valid`; and a range tree whose every iteration appends the same
number `k` of dynamics (with `IncRangeStep` between iterations) ends with
every inner row of length `k`, statics of length `k + 1`, and `Valid`. -/
theorem tree_builder_valid :
    (∀ ops : List BuildOp, (runOps NewTree ops).valid = true)
    ∧ (∀ (k : Nat) (rows : List (List String)), rows ≠ [] →
        (∀ r ∈ rows, r.length = k) →
        (∀ d ∈ (runRangeRows rangeTree0 rows).dynamics,
          ∃ row, d = Dyn.arr row ∧ row.length = k)
        ∧ (runRangeRows rangeTree0 rows).statics.length = k + 1
        ∧ (runRangeRows rangeTree0 rows).valid = true) := by
  constructor
  · intro ops
    have h := altInv_runOps ops NewTree ⟨rfl, rfl⟩
    obtain ⟨hr, hlen⟩ := h
    simp [Tree.valid, Tree.nDyn, hr, hlen]
  · intro k rows hne hlen
    rcases Nat.eq_zero_or_pos k with rfl | hk
    · have hall : ∀ r ∈ rows, r = ([] : List String) := by
        intro r hr
        have := hlen r hr
        simpa [List.length_eq_zero] using this
      rw [show rangeTree0 = Tree.mk [""] [] false true 0 from rfl,
        runRangeRows_empty_rows rows hall [""] 0]
      refine ⟨by simp [Tree.dynamics], by simp [Tree.statics], ?_⟩
      simp [Tree.valid, Tree.nDyn, Tree.dynamics, Tree.statics]
    · cases rows with
      | nil => exact absurd rfl hne
      | cons row rest =>
        have hrow : row ≠ [] := by
          have := hlen row (by simp)
          intro hcon; rw [hcon] at this; simp at this; omega
        have hrowk : row.length = k := hlen row (by simp)
        have hres : runRangeRows rangeTree0 (row :: rest) =
            Tree.mk ([""] ++ List.replicate row.length "")
              ([Dyn.arr (row.map Dyn.str)]
                ++ rest.map fun r2 => Dyn.arr (r2.map Dyn.str))
              false true
              (List.length [Dyn.arr (row.map Dyn.str)] + rest.length) := by
          show runRangeRows ((appendRow rangeTree0 row).incRangeStep) rest = _
          rw [show rangeTree0 = Tree.mk [""] ([] : List Dyn) false true
            (List.length ([] : List Dyn)) from rfl]
          rw [appendRow_iter row [""] [] hrow]
          simp only [List.length_nil, beq_self_eq_true, if_true, List.nil_append]
          rw [incRangeStep_mk]
          rw [show (0 + 1 : Nat) = List.length [Dyn.arr (row.map Dyn.str)]
            from by simp]
          rw [runRangeRows_inv k rest (fun r hr => hlen r (by simp [hr])) hk
            _ _ (by simp)]
        rw [hres]
        have hnd : Tree.nDyn (Tree.mk ([""] ++ List.replicate row.length "")
            ([Dyn.arr (row.map Dyn.str)]
              ++ rest.map fun r2 => Dyn.arr (r2.map Dyn.str))
            false true
            (List.length [Dyn.arr (row.map Dyn.str)] + rest.length)) = row.length := by
          rw [Tree.nDyn, if_neg (by simp [Tree.isRange, Tree.dynamics])]
          simp [Tree.dynamics, rowLen]
        refine ⟨?_, ?_, ?_⟩
        · intro d hd
          simp only [Tree.dynamics, List.cons_append, List.nil_append,
            List.mem_cons, List.mem_map] at hd
          rcases hd with rfl | ⟨r2, hr2, rfl⟩
          · exact ⟨row.map Dyn.str, rfl, by simp [hrowk]⟩
          · exact ⟨r2.map Dyn.str, rfl, by simp [hlen r2 (by simp [hr2])]⟩
        · simp only [Tree.statics, List.length_append, List.length_replicate,
            List.length_cons, List.length_nil, hrowk]
          omega
        · rw [Tree.valid, hnd]
          simp only [Tree.statics, List.length_append, List.length_replicate,
            List.length_cons, List.length_nil, beq_iff_eq]
          omega

/-- Witness for C3: two builder calls on a fresh tree keep it valid, and a
two-iteration range with one dynamic per iteration ends with statics of
length 2. -/
theorem tree_builder_valid_witness :
    (runOps NewTree [.static "x", .dyn "y"]).valid = true
    ∧ (runRangeRows rangeTree0 [["a"], ["b"]]).statics.length = 1 + 1 :=
  ⟨tree_builder_valid.1 [.static "x", .dyn "y"],
   (tree_builder_valid.2 1 [["a"], ["b"]] (by simp) (by simp)).2.1⟩

/-- Counterexample to C7 as stated: the first `IncRangeStep` on a fresh
range tree appends no placeholder static — the statics stay `[""]` (the
claim predicts their length grows by one). -/
theorem incRangeStep_appends_no_static :
    Tree.incRangeStep rangeTree0 = Tree.mk [""] [] false true 1
    ∧ (Tree.incRangeStep rangeTree0).statics = rangeTree0.statics
    ∧ ¬ ((Tree.incRangeStep rangeTree0).statics.length
          = rangeTree0.statics.length + 1) := by
  refine ⟨rfl, rfl, ?_⟩
  intro h
  simp [Tree.statics, rangeTree0, Tree.incRangeStep] at h

/-- C7 (amended): `IncRangeStep` only advances the range write cursor; it
never touches statics or dynamics.  The paired placeholder static is
appended by `appendDynamic`, and only while the cursor is still on the
first iteration (`rangeStep = 0`). -/
theorem incRangeStep_only_advances (t : Tree) (d : Dyn) :
    (Tree.incRangeStep t).statics = t.statics
    ∧ (Tree.incRangeStep t).dynamics = t.dynamics
    ∧ (Tree.incRangeStep t).rangeStep = t.rangeStep + 1
    ∧ (t.isRange = true →
        (t.appendDynamic d).statics =
          if t.rangeStep == 0 then t.statics ++ [""] else t.statics) := by
  obtain ⟨ss, ds, x, r, n⟩ := t
  refine ⟨rfl, rfl, rfl, ?_⟩
  intro hr
  simp only [Tree.isRange] at hr
  subst hr
  rw [Tree.appendDynamic, if_neg (by simp [Tree.isRange])]
  rfl

/-- Witness for the amended C7 on a fresh range tree: the first call leaves
the statics alone, and an appended dynamic during the first iteration adds
the placeholder static. -/
theorem incRangeStep_only_advances_witness :
    (Tree.incRangeStep rangeTree0).statics = rangeTree0.statics
    ∧ (Tree.incRangeStep rangeTree0).rangeStep = rangeTree0.rangeStep + 1
    ∧ (rangeTree0.appendDynamic (.str "a")).statics =
        (if rangeTree0.rangeStep == 0 then rangeTree0.statics ++ [""]
         else rangeTree0.statics) := by
  obtain ⟨h1, -, h3, h4⟩ := incRangeStep_only_advances rangeTree0 (.str "a")
  exact ⟨h1, h3, h4 rfl⟩

/-! ### Diffing (`diff` in `internal/tmpl/tree.go`) -/

/-- Go's `excludeStatics(old, new []string) bool`: equal lengths and
element-wise equal — list equality. -/
def staticsEqual (old new : List String) : Bool := old == new

/-- `skipRender{}` test. -/
def isSkip : Dyn → Bool
  | .skip => true
  | _ => false

/-- The `allSkips` flag of `diff`: no position produced a change. -/
def allSkips (ds : List Dyn) : Bool := ds.all isSkip

/-- `diffTree = new; diffTree.ExcludeStatics = b` (the Go code sets the
flag on the returned tree, which aliases `new`). -/
def Tree.setExclude (t : Tree) (b : Bool) : Tree :=
  .mk t.statics t.dynamics b t.isRange t.rangeStep

theorem sizeOf_tree_dynamics_lt (t : Tree) : sizeOf t.dynamics < sizeOf t := by
  obtain ⟨ss, ds, x, r, n⟩ := t
  simp [Tree.dynamics]
  omega

mutual

/-- `diff(old, new)` from `tree.go`: `none` models the nil result (no
difference).  A range tree is emitted whole on any length/type/cell
difference, with `ExcludeStatics` tracking whether the statics matched; a
non-range tree diffs position-wise into skip sentinels, replacement
values, and recursively diffed subtrees (the result tree is a `NewTree`
whose dynamics were appended directly, so its statics stay `[""]`). -/
def diff (old new : Tree) : Option Tree :=
  if new.isRange then
    if !old.isRange then
      some (Tree.setExclude new (staticsEqual old.statics new.statics))
    else if old.dynamics.length ≠ new.dynamics.length then
      some (Tree.setExclude new (staticsEqual old.statics new.statics))
    else if rowsDiffer old.dynamics new.dynamics then
      some (Tree.setExclude new (staticsEqual old.statics new.statics))
    else if staticsEqual old.statics new.statics then none
    else some (Tree.setExclude new false)
  else
    let ds := diffDyns old.dynamics new.dynamics
    if staticsEqual old.statics new.statics && allSkips ds then none
    else some (Tree.mk [""] ds (staticsEqual old.statics new.statics) false 0)
termination_by sizeOf new
decreasing_by
  all_goals simp_wf
  all_goals exact sizeOf_tree_dynamics_lt _

/-- The position loop of the non-range branch: positions beyond `old`'s
length take `new`'s value; extra old positions are dropped. -/
def diffDyns : List Dyn → List Dyn → List Dyn
  | _, [] => []
  | [], n :: ns => n :: diffDyns [] ns
  | o :: os, n :: ns => diffDyn o n :: diffDyns os ns
termination_by os ns => sizeOf ns
decreasing_by
  all_goals simp_wf
  all_goals omega

/-- One non-range position: equal strings and unchanged subtrees become
the skip sentinel; a changed string or subtree is emitted; differing kinds
take `new`'s value (the catch-all also covers Go's panic on `[]any` here,
unreachable for engine-built trees). -/
def diffDyn (o n : Dyn) : Dyn :=
  match o, n with
  | .str a, .str b => if a == b then .skip else .str b
  | .sub a, .sub b =>
    match diff a b with
    | some d => .sub d
    | none => .skip
  | _, _ => n
termination_by sizeOf n
decreasing_by
  all_goals simp_wf

/-- The per-iteration loop of the range branch (called with equal
lengths). -/
def rowsDiffer : List Dyn → List Dyn → Bool
  | o :: os, n :: ns => rowDiffer o n || rowsDiffer os ns
  | _, _ => false
termination_by os ns => sizeOf ns
decreasing_by
  all_goals simp_wf
  all_goals omega

/-- One range iteration: differing kinds count as a difference (the
non-`arr` same-kind cases are Go's `[]any` assertion panic, unreachable
for engine-built trees). -/
def rowDiffer (o n : Dyn) : Bool :=
  match o, n with
  | .arr ro, .arr rn => cellsDiffer ro rn
  | _, _ => true
termination_by sizeOf n
decreasing_by
  all_goals simp_wf

/-- The inner-cell loop of one iteration; indexing a shorter old row is
Go's out-of-range panic, unreachable for engine-built trees. -/
def cellsDiffer : List Dyn → List Dyn → Bool
  | _, [] => false
  | [], _ :: _ => true
  | o :: os, n :: ns => cellDiffer o n || cellsDiffer os ns
termination_by os ns => sizeOf ns
decreasing_by
  all_goals simp_wf
  all_goals omega

/-- One range cell: strings compare by value, subtrees by a recursive
diff; the catch-all covers kind mismatches (take new) and Go's panic
default, unreachable for engine-built trees. -/
def cellDiffer (o n : Dyn) : Bool :=
  match o, n with
  | .str a, .str b => !(a == b)
  | .sub a, .sub b => (diff a b).isSome
  | _, _ => true
termination_by sizeOf n
decreasing_by
  all_goals simp_wf

end

/-! ### The client's patcher contract (spec §4.1 Diffing / §8), and
rendered-content equality -/

mutual

/-- Modelled from the spec: the client applies the diff as an overlay.
A full (range) diff replaces the node's dynamics wholesale; otherwise the
diff's positions overlay the old ones.  Omitted statics (`excludeStatics`)
mean: keep the old statics. -/
def overlay (old d : Tree) : Tree :=
  if d.isRange then
    .mk (if d.excludeStatics then old.statics else d.statics) d.dynamics
      false true 0
  else
    .mk (if d.excludeStatics then old.statics else d.statics)
      (overlayDyns old.dynamics d.dynamics) false false 0
termination_by sizeOf d
decreasing_by
  all_goals simp_wf
  all_goals exact sizeOf_tree_dynamics_lt _

def overlayDyns : List Dyn → List Dyn → List Dyn
  | _, [] => []
  | [], n :: ns => n :: overlayDyns [] ns
  | o :: os, n :: ns => overlayDyn o n :: overlayDyns os ns
termination_by os ns => sizeOf ns
decreasing_by
  all_goals simp_wf
  all_goals omega

/-- One overlay position: the skip sentinel keeps the old value, a string
replaces, a subtree diff merges recursively into an old subtree (and
replaces anything else). -/
def overlayDyn (o n : Dyn) : Dyn :=
  match n with
  | .skip => o
  | .str s => .str s
  | .sub dt =>
    match o with
    | .sub ot => .sub (overlay ot dt)
    | _ => .sub dt
  | .arr l => .arr l
termination_by sizeOf n
decreasing_by
  all_goals simp_wf
  all_goals omega

end

/-- Applying a possibly-nil diff: nil means the client keeps its tree. -/
def applyDiff (old : Tree) (d : Option Tree) : Tree :=
  match d with
  | none => old
  | some dt => overlay old dt

mutual

/-- Rendered content of a tree: statics, dynamics, and range-ness, with
the diff/write bookkeeping (`excludeStatics`, `rangeStep`) cleared.  Two
trees with equal `strip`s serialize the same content. -/
def strip : Tree → Tree
  | .mk ss ds _ r _ => .mk ss (stripDyns ds) false r 0

def stripDyns : List Dyn → List Dyn
  | [] => []
  | d :: ds => stripDyn d :: stripDyns ds

def stripDyn : Dyn → Dyn
  | .str s => .str s
  | .sub t => .sub (strip t)
  | .arr row => .arr (stripDyns row)
  | .skip => .skip

end

mutual

/-- Same-template alignment of two rendered trees, to the depth that
`diff` recursively compares them.  A template fixes each node's
range-ness and, for non-range nodes, its statics text and dynamic-slot
count; a slot's kind may still flip between string and subtree when a
conditional's branches render differently — such a flip makes `diff` emit
new's value wholesale, which needs no side condition.  Requiring equal
statics at every recursively diffed non-range node is exactly the proviso
forced by `diff_overlay_statics_flip`: where a compared node's statics
change, the diff carries statics `[""]` instead of new's and the patcher
contract fails.  Range iterations are compared cell-wise only when the
iteration counts coincide (otherwise new is emitted whole), so rows are
constrained only in that case; range statics need no condition because
the range branch returns `new` itself. -/
def aligned (old new : Tree) : Prop :=
  if new.isRange then
    old.isRange = true
    ∧ (old.dynamics.length = new.dynamics.length →
        rowsAligned old.dynamics new.dynamics)
  else
    old.isRange = false
    ∧ old.statics = new.statics
    ∧ dynsAligned old.dynamics new.dynamics
termination_by sizeOf new
decreasing_by
  all_goals simp_wf
  all_goals exact sizeOf_tree_dynamics_lt _

/-- Positional alignment of non-range dynamics (a template fixes the
slot count, so the lists pair off). -/
def dynsAligned : List Dyn → List Dyn → Prop
  | [], [] => True
  | o :: os, n :: ns => dynAligned o n ∧ dynsAligned os ns
  | _, _ => False
termination_by os ns => sizeOf ns
decreasing_by
  all_goals simp_wf
  all_goals omega

/-- One slot: strings always align, subtree pairs align recursively, and
a string/subtree kind flip is allowed (diff takes new's value wholesale
there); `arr` and the skip sentinel never occur in rendered dynamics. -/
def dynAligned : Dyn → Dyn → Prop
  | .str _, .str _ => True
  | .sub a, .sub b => aligned a b
  | .str _, .sub _ => True
  | .sub _, .str _ => True
  | _, _ => False
termination_by o n => sizeOf n
decreasing_by
  all_goals simp_wf
  all_goals omega

/-- Pairwise alignment of range iterations (only demanded when the
iteration counts coincide). -/
def rowsAligned : List Dyn → List Dyn → Prop
  | [], [] => True
  | o :: os, n :: ns => rowAligned o n ∧ rowsAligned os ns
  | _, _ => False
termination_by os ns => sizeOf ns
decreasing_by
  all_goals simp_wf
  all_goals omega

/-- Each iteration of a rendered range tree is a row (`arr`) of cells of
the template-fixed arity, aligned like non-range slots. -/
def rowAligned : Dyn → Dyn → Prop
  | .arr ro, .arr rn => dynsAligned ro rn
  | _, _ => False
termination_by o n => sizeOf n
decreasing_by
  all_goals simp_wf
  all_goals omega

end

theorem staticsEqual_self (ss : List String) : staticsEqual ss ss = true := by
  simp [staticsEqual]

theorem setExclude_mk (ss : List String) (ds : List Dyn) (x r : Bool) (n : Nat)
    (b : Bool) : Tree.setExclude (.mk ss ds x r n) b = .mk ss ds b r n := rfl

/-! ### The statics-flip counterexample -/

/-- Old render of a template like
`<p>{{if .C}}A{{.X}}B{{else}}C{{.Y}}D{{end}}</p>`: the conditional took
the first branch, so the slot holds a subtree with statics `["A", "B"]`. -/
def flipOld : Tree :=
  .mk ["<p>", "</p>"] [.sub (.mk ["A", "B"] [.str "x"] false false 0)]
    false false 0

/-- New render of the same template with the conditional flipped: the
same slot holds a subtree of the same kind and arity, but with statics
`["C", "D"]`. -/
def flipNew : Tree :=
  .mk ["<p>", "</p>"] [.sub (.mk ["C", "D"] [.str "y"] false false 0)]
    false false 0

/-- C4, counterexample: the claimed patcher contract fails on two valid
renders of one template whose conditional branch flipped.  `flipOld` and
`flipNew` agree on root statics, range-ness and slot count, and the
flipped slot is a subtree in both; but the recursive non-range diff of
that slot returns a `NewTree` whose statics stay `[""]` with
`ExcludeStatics = false` (`diff` in `tree.go` never copies `new`'s
statics into a non-range diff tree), so the overlay installs statics
`[""]` where `new` has `["C", "D"]` and the result is not `new`. -/
theorem diff_overlay_statics_flip :
    flipOld.valid = true ∧ flipNew.valid = true
    ∧ flipOld.statics = flipNew.statics
    ∧ flipOld.isRange = flipNew.isRange
    ∧ flipOld.dynamics.length = flipNew.dynamics.length
    ∧ diff flipOld flipNew
      = some (Tree.mk [""]
          [.sub (Tree.mk [""] [.str "y"] false false 0)] true false 0)
    ∧ strip (applyDiff flipOld (diff flipOld flipNew)) ≠ strip flipNew := by
  have hse1 : staticsEqual ["A", "B"] ["C", "D"] = false := by decide
  have hse2 : staticsEqual ["<p>", "</p>"] ["<p>", "</p>"] = true := by decide
  have hdd0 : diffDyns ([] : List Dyn) [] = [] := by simp [diffDyns]
  have hdd1 : diffDyns [Dyn.str "x"] [Dyn.str "y"] = [Dyn.str "y"] := by
    rw [show diffDyns [Dyn.str "x"] [Dyn.str "y"]
      = diffDyn (Dyn.str "x") (Dyn.str "y") :: diffDyns [] [] from by
        simp [diffDyns]]
    rw [hdd0]
    rw [show diffDyn (Dyn.str "x") (Dyn.str "y") = Dyn.str "y" from by
      simp [diffDyn]]
  have hinner : diff (Tree.mk ["A", "B"] [.str "x"] false false 0)
      (Tree.mk ["C", "D"] [.str "y"] false false 0)
      = some (Tree.mk [""] [.str "y"] false false 0) := by
    rw [diff]
    simp only [Tree.isRange, Bool.false_eq_true, if_false, Tree.statics,
      Tree.dynamics]
    rw [hdd1, hse1]
    simp
  have hds : diffDyns [Dyn.sub (Tree.mk ["A", "B"] [.str "x"] false false 0)]
      [Dyn.sub (Tree.mk ["C", "D"] [.str "y"] false false 0)]
      = [Dyn.sub (Tree.mk [""] [.str "y"] false false 0)] := by
    rw [show diffDyns [Dyn.sub (Tree.mk ["A", "B"] [.str "x"] false false 0)]
        [Dyn.sub (Tree.mk ["C", "D"] [.str "y"] false false 0)]
      = diffDyn (Dyn.sub (Tree.mk ["A", "B"] [.str "x"] false false 0))
          (Dyn.sub (Tree.mk ["C", "D"] [.str "y"] false false 0))
        :: diffDyns [] [] from by simp [diffDyns]]
    rw [hdd0]
    rw [show diffDyn (Dyn.sub (Tree.mk ["A", "B"] [.str "x"] false false 0))
        (Dyn.sub (Tree.mk ["C", "D"] [.str "y"] false false 0))
      = Dyn.sub (Tree.mk [""] [.str "y"] false false 0) from by
        simp [diffDyn, hinner]]
  have houter : diff flipOld flipNew
      = some (Tree.mk [""]
          [.sub (Tree.mk [""] [.str "y"] false false 0)] true false 0) := by
    rw [diff]
    simp only [flipOld, flipNew, Tree.isRange, Bool.false_eq_true, if_false,
      Tree.statics, Tree.dynamics]
    rw [hds, hse2]
    simp [allSkips, isSkip]
  have hov1 : overlay (Tree.mk ["A", "B"] [.str "x"] false false 0)
      (Tree.mk [""] [.str "y"] false false 0)
      = Tree.mk [""] [.str "y"] false false 0 := by
    rw [overlay]
    simp only [Tree.isRange, Bool.false_eq_true, if_false,
      Tree.excludeStatics, Tree.statics, Tree.dynamics]
    rw [show overlayDyns [Dyn.str "x"] [Dyn.str "y"] = [Dyn.str "y"] from by
      simp [overlayDyns, overlayDyn]]
  have hov2 : overlay flipOld
      (Tree.mk [""] [.sub (Tree.mk [""] [.str "y"] false false 0)]
        true false 0)
      = Tree.mk ["<p>", "</p>"]
          [.sub (Tree.mk [""] [.str "y"] false false 0)] false false 0 := by
    rw [overlay]
    simp only [flipOld, Tree.isRange, Bool.false_eq_true, if_false,
      Tree.excludeStatics, Tree.statics, Tree.dynamics, if_true]
    rw [show overlayDyns
        [Dyn.sub (Tree.mk ["A", "B"] [.str "x"] false false 0)]
        [Dyn.sub (Tree.mk [""] [.str "y"] false false 0)]
      = [Dyn.sub (overlay (Tree.mk ["A", "B"] [.str "x"] false false 0)
          (Tree.mk [""] [.str "y"] false false 0))] from by
        simp [overlayDyns, overlayDyn]]
    rw [hov1]
  refine ⟨by decide, by decide, rfl, rfl, rfl, houter, ?_⟩
  rw [houter]
  simp only [applyDiff]
  rw [hov2]
  simp only [flipNew, strip, stripDyns, stripDyn]
  intro h
  simp at h

/-! ### The diff/overlay theorem on the aligned region -/

/-- The inductive engine of the diff/overlay theorem, measured by the
size of the new tree: overlaying `diff old new` onto `old` reproduces
`new`'s rendered content on every aligned pair. -/
theorem diff_overlay_aligned_aux : ∀ (n : Nat) (new : Tree), sizeOf new ≤ n →
    ∀ old : Tree, aligned old new →
    strip (applyDiff old (diff old new)) = strip new := by
  intro n
  induction n with
  | zero =>
    intro new hsz
    obtain ⟨nss, nds, nex, nrng, nstep⟩ := new
    simp at hsz
  | succ n ih =>
    intro new hsz old hal
    obtain ⟨nss, nds, nex, nrng, nstep⟩ := new
    obtain ⟨oss, ods, oex, orng, ostep⟩ := old
    rw [aligned] at hal
    simp only [Tree.isRange, Tree.statics, Tree.dynamics] at hal
    have hndsn : sizeOf nds ≤ n := by
      simp at hsz
      omega
    cases nrng with
    | false =>
      simp only [Bool.false_eq_true, if_false] at hal
      obtain ⟨hor, hst, hdyns⟩ := hal
      subst hor
      subst hst
      -- the non-range key lemma: positionwise overlay of the diff
      have key : ∀ ns : List Dyn, sizeOf ns ≤ sizeOf nds →
          ∀ os : List Dyn, dynsAligned os ns →
          stripDyns (overlayDyns os (diffDyns os ns)) = stripDyns ns
          ∧ (allSkips (diffDyns os ns) = true → stripDyns os = stripDyns ns) := by
        intro ns
        induction ns with
        | nil =>
          intro _ os hda
          cases os with
          | cons o os2 => simp [dynsAligned] at hda
          | nil => exact ⟨by simp [diffDyns, overlayDyns], fun _ => rfl⟩
        | cons nd ns2 ihns =>
          intro hsz2 os hda
          cases os with
          | nil => simp [dynsAligned] at hda
          | cons od os2 =>
          rw [dynsAligned] at hda
          obtain ⟨hd1, hd2⟩ := hda
          have hsz3 : sizeOf ns2 ≤ sizeOf nds := by
            simp at hsz2
            omega
          have ihrest := ihns hsz3 os2 hd2
          cases od with
          | str a =>
            cases nd with
            | str b =>
              rw [show diffDyns (Dyn.str a :: os2) (Dyn.str b :: ns2)
                = diffDyn (Dyn.str a) (Dyn.str b) :: diffDyns os2 ns2 from by
                  simp [diffDyns]]
              by_cases hab : a == b
              · rw [show diffDyn (Dyn.str a) (Dyn.str b) = Dyn.skip from by
                  simp [diffDyn, hab]]
                have hab2 : a = b := by simpa using hab
                subst hab2
                constructor
                · rw [show overlayDyns (Dyn.str a :: os2)
                    (Dyn.skip :: diffDyns os2 ns2)
                    = overlayDyn (Dyn.str a) Dyn.skip
                      :: overlayDyns os2 (diffDyns os2 ns2) from by
                      simp [overlayDyns]]
                  rw [show overlayDyn (Dyn.str a) Dyn.skip = Dyn.str a from by
                    simp [overlayDyn]]
                  simp only [stripDyns, stripDyn]
                  rw [ihrest.1]
                · intro hall
                  simp only [allSkips, List.all_cons, Bool.and_eq_true] at hall
                  simp only [stripDyns, stripDyn]
                  rw [ihrest.2 hall.2]
              · rw [show diffDyn (Dyn.str a) (Dyn.str b) = Dyn.str b from by
                  simp [diffDyn, hab]]
                constructor
                · rw [show overlayDyns (Dyn.str a :: os2)
                    (Dyn.str b :: diffDyns os2 ns2)
                    = overlayDyn (Dyn.str a) (Dyn.str b)
                      :: overlayDyns os2 (diffDyns os2 ns2) from by
                      simp [overlayDyns]]
                  rw [show overlayDyn (Dyn.str a) (Dyn.str b) = Dyn.str b
                    from by simp [overlayDyn]]
                  simp only [stripDyns, stripDyn]
                  rw [ihrest.1]
                · intro hall
                  simp [allSkips, isSkip] at hall
            | sub b =>
              -- kind flip: the diff takes new's subtree wholesale
              rw [show diffDyns (Dyn.str a :: os2) (Dyn.sub b :: ns2)
                = diffDyn (Dyn.str a) (Dyn.sub b) :: diffDyns os2 ns2 from by
                  simp [diffDyns]]
              rw [show diffDyn (Dyn.str a) (Dyn.sub b) = Dyn.sub b from by
                simp [diffDyn]]
              constructor
              · rw [show overlayDyns (Dyn.str a :: os2)
                  (Dyn.sub b :: diffDyns os2 ns2)
                  = overlayDyn (Dyn.str a) (Dyn.sub b)
                    :: overlayDyns os2 (diffDyns os2 ns2) from by
                    simp [overlayDyns]]
                rw [show overlayDyn (Dyn.str a) (Dyn.sub b) = Dyn.sub b
                  from by simp [overlayDyn]]
                simp only [stripDyns, stripDyn]
                rw [ihrest.1]
              · intro hall
                simp [allSkips, isSkip] at hall
            | arr b => simp [dynAligned] at hd1
            | skip => simp [dynAligned] at hd1
          | sub a =>
            cases nd with
            | str b =>
              -- kind flip: the diff takes new's string wholesale
              rw [show diffDyns (Dyn.sub a :: os2) (Dyn.str b :: ns2)
                = diffDyn (Dyn.sub a) (Dyn.str b) :: diffDyns os2 ns2 from by
                  simp [diffDyns]]
              rw [show diffDyn (Dyn.sub a) (Dyn.str b) = Dyn.str b from by
                simp [diffDyn]]
              constructor
              · rw [show overlayDyns (Dyn.sub a :: os2)
                  (Dyn.str b :: diffDyns os2 ns2)
                  = overlayDyn (Dyn.sub a) (Dyn.str b)
                    :: overlayDyns os2 (diffDyns os2 ns2) from by
                    simp [overlayDyns]]
                rw [show overlayDyn (Dyn.sub a) (Dyn.str b) = Dyn.str b
                  from by simp [overlayDyn]]
                simp only [stripDyns, stripDyn]
                rw [ihrest.1]
              · intro hall
                simp [allSkips, isSkip] at hall
            | sub b =>
              rw [show dynAligned (Dyn.sub a) (Dyn.sub b) = aligned a b
                from by simp [dynAligned]] at hd1
              have hszb : sizeOf b ≤ n := by
                simp at hsz2
                omega
              have hM := ih b hszb a hd1
              rw [show diffDyns (Dyn.sub a :: os2) (Dyn.sub b :: ns2)
                = diffDyn (Dyn.sub a) (Dyn.sub b) :: diffDyns os2 ns2 from by
                  simp [diffDyns]]
              cases hd : diff a b with
              | none =>
                have hab : strip a = strip b := by
                  rw [hd] at hM
                  simpa [applyDiff] using hM
                rw [show diffDyn (Dyn.sub a) (Dyn.sub b) = Dyn.skip from by
                  simp [diffDyn, hd]]
                constructor
                · rw [show overlayDyns (Dyn.sub a :: os2)
                    (Dyn.skip :: diffDyns os2 ns2)
                    = overlayDyn (Dyn.sub a) Dyn.skip
                      :: overlayDyns os2 (diffDyns os2 ns2) from by
                      simp [overlayDyns]]
                  rw [show overlayDyn (Dyn.sub a) Dyn.skip = Dyn.sub a from by
                    simp [overlayDyn]]
                  simp only [stripDyns, stripDyn]
                  rw [ihrest.1, hab]
                · intro hall
                  simp only [allSkips, List.all_cons, Bool.and_eq_true] at hall
                  simp only [stripDyns, stripDyn]
                  rw [ihrest.2 hall.2, hab]
              | some d =>
                have hab : strip (overlay a d) = strip b := by
                  rw [hd] at hM
                  simpa [applyDiff] using hM
                rw [show diffDyn (Dyn.sub a) (Dyn.sub b) = Dyn.sub d from by
                  simp [diffDyn, hd]]
                constructor
                · rw [show overlayDyns (Dyn.sub a :: os2)
                    (Dyn.sub d :: diffDyns os2 ns2)
                    = overlayDyn (Dyn.sub a) (Dyn.sub d)
                      :: overlayDyns os2 (diffDyns os2 ns2) from by
                      simp [overlayDyns]]
                  rw [show overlayDyn (Dyn.sub a) (Dyn.sub d)
                    = Dyn.sub (overlay a d) from by simp [overlayDyn]]
                  simp only [stripDyns, stripDyn]
                  rw [ihrest.1, hab]
                · intro hall
                  simp [allSkips, isSkip] at hall
            | arr b => simp [dynAligned] at hd1
            | skip => simp [dynAligned] at hd1
          | arr a => cases nd <;> simp [dynAligned] at hd1
          | skip => cases nd <;> simp [dynAligned] at hd1
      have hkey := key nds (le_refl _) ods hdyns
      rw [diff]
      simp only [Tree.isRange, Bool.false_eq_true, if_false, Tree.statics,
        Tree.dynamics, staticsEqual_self, Bool.true_and]
      by_cases hsk : allSkips (diffDyns ods nds) = true
      · rw [if_pos hsk]
        simp only [applyDiff]
        simp only [strip]
        rw [hkey.2 hsk]
      · rw [if_neg hsk]
        simp only [applyDiff]
        rw [overlay]
        simp only [Tree.isRange, Bool.false_eq_true, if_false,
          Tree.excludeStatics, Tree.statics, Tree.dynamics, if_true]
        simp only [strip]
        rw [hkey.1]
    | true =>
      simp only [if_true] at hal
      obtain ⟨hor, hrows⟩ := hal
      subst hor
      -- cell-level: unchanged cells of aligned rows have equal content
      have keyc : ∀ rn : List Dyn, sizeOf rn ≤ sizeOf nds →
          ∀ ro : List Dyn, dynsAligned ro rn →
          cellsDiffer ro rn = false → stripDyns ro = stripDyns rn := by
        intro rn
        induction rn with
        | nil =>
          intro _ ro hda _
          cases ro with
          | cons o os2 => simp [dynsAligned] at hda
          | nil => rfl
        | cons nd ns2 ihns =>
          intro hsz2 ro hda hcd
          cases ro with
          | nil => simp [dynsAligned] at hda
          | cons od os2 =>
          rw [dynsAligned] at hda
          obtain ⟨hd1, hd2⟩ := hda
          rw [show cellsDiffer (od :: os2) (nd :: ns2)
            = (cellDiffer od nd || cellsDiffer os2 ns2) from by
              simp [cellsDiffer]] at hcd
          simp only [Bool.or_eq_false_iff] at hcd
          have hsz3 : sizeOf ns2 ≤ sizeOf nds := by
            simp at hsz2
            omega
          have ihrest := ihns hsz3 os2 hd2 hcd.2
          cases od with
          | str a =>
            cases nd with
            | str b =>
              have hab : a = b := by
                have := hcd.1
                simp [cellDiffer] at this
                exact this
              subst hab
              simp only [stripDyns, stripDyn]
              rw [ihrest]
            | sub b =>
              have := hcd.1
              simp [cellDiffer] at this
            | arr b => simp [dynAligned] at hd1
            | skip => simp [dynAligned] at hd1
          | sub a =>
            cases nd with
            | str b =>
              have := hcd.1
              simp [cellDiffer] at this
            | sub b =>
              rw [show dynAligned (Dyn.sub a) (Dyn.sub b) = aligned a b
                from by simp [dynAligned]] at hd1
              have hszb : sizeOf b ≤ n := by
                simp at hsz2
                omega
              have hM := ih b hszb a hd1
              have hd : diff a b = none := by
                cases hdd : diff a b with
                | none => rfl
                | some d =>
                  have := hcd.1
                  rw [show cellDiffer (Dyn.sub a) (Dyn.sub b)
                    = (diff a b).isSome from by simp [cellDiffer]] at this
                  rw [hdd] at this
                  simp at this
              have hab : strip a = strip b := by
                rw [hd] at hM
                simpa [applyDiff] using hM
              simp only [stripDyns, stripDyn]
              rw [ihrest, hab]
            | arr b => simp [dynAligned] at hd1
            | skip => simp [dynAligned] at hd1
          | arr a => cases nd <;> simp [dynAligned] at hd1
          | skip => cases nd <;> simp [dynAligned] at hd1
      -- row-level: unchanged aligned iterations have equal content
      have keyr : ∀ ns : List Dyn, sizeOf ns ≤ sizeOf nds →
          ∀ os : List Dyn, rowsAligned os ns →
          rowsDiffer os ns = false → stripDyns os = stripDyns ns := by
        intro ns
        induction ns with
        | nil =>
          intro _ os hra _
          cases os with
          | cons o os2 => simp [rowsAligned] at hra
          | nil => rfl
        | cons nd ns2 ihns =>
          intro hsz2 os hra hrd
          cases os with
          | nil => simp [rowsAligned] at hra
          | cons od os2 =>
          rw [rowsAligned] at hra
          obtain ⟨hr1, hr2⟩ := hra
          have hsz3 : sizeOf ns2 ≤ sizeOf nds := by
            simp at hsz2
            omega
          cases od with
          | arr ro =>
            cases nd with
            | arr rn =>
              rw [show rowAligned (Dyn.arr ro) (Dyn.arr rn)
                = dynsAligned ro rn from by simp [rowAligned]] at hr1
              rw [show rowsDiffer (Dyn.arr ro :: os2) (Dyn.arr rn :: ns2)
                = (rowDiffer (Dyn.arr ro) (Dyn.arr rn) || rowsDiffer os2 ns2)
                from by simp [rowsDiffer]] at hrd
              simp only [Bool.or_eq_false_iff] at hrd
              have hcell : cellsDiffer ro rn = false := by
                have := hrd.1
                simpa [rowDiffer] using this
              have hszrn : sizeOf rn ≤ sizeOf nds := by
                simp at hsz2
                omega
              have hrow := keyc rn hszrn ro hr1 hcell
              simp only [stripDyns, stripDyn]
              rw [hrow, ihns hsz3 os2 hr2 hrd.2]
            | str b => simp [rowAligned] at hr1
            | sub b => simp [rowAligned] at hr1
            | skip => simp [rowAligned] at hr1
          | str a => cases nd <;> simp [rowAligned] at hr1
          | sub a => cases nd <;> simp [rowAligned] at hr1
          | skip => cases nd <;> simp [rowAligned] at hr1
      rw [diff]
      simp only [Tree.isRange, if_true, Bool.not_true, Bool.false_eq_true,
        if_false, Tree.statics, Tree.dynamics]
      by_cases hlen : ods.length = nds.length
      · rw [if_neg (by simpa using hlen)]
        by_cases hrd : rowsDiffer ods nds = true
        · rw [if_pos hrd]
          simp only [applyDiff]
          rw [setExclude_mk, overlay]
          simp only [Tree.isRange, if_true, Tree.excludeStatics,
            Tree.statics, Tree.dynamics]
          by_cases hse : staticsEqual oss nss = true
          · have hssn : oss = nss := by simpa [staticsEqual] using hse
            subst hssn
            rw [if_pos hse]
            simp only [strip]
          · rw [if_neg hse]
            simp only [strip]
        · rw [if_neg hrd]
          by_cases hse : staticsEqual oss nss = true
          · rw [if_pos hse]
            have hssn : oss = nss := by simpa [staticsEqual] using hse
            subst hssn
            simp only [applyDiff]
            simp only [strip]
            rw [keyr nds (le_refl _) ods (hrows hlen) (by simpa using hrd)]
          · rw [if_neg hse]
            simp only [applyDiff]
            rw [setExclude_mk, overlay]
            simp only [Tree.isRange, if_true, Tree.excludeStatics,
              Tree.statics, Tree.dynamics, Bool.false_eq_true, if_false]
            simp only [strip]
      · rw [if_pos hlen]
        simp only [applyDiff]
        rw [setExclude_mk, overlay]
        simp only [Tree.isRange, if_true, Tree.excludeStatics,
          Tree.statics, Tree.dynamics]
        by_cases hse : staticsEqual oss nss = true
        · have hssn : oss = nss := by simpa [staticsEqual] using hse
          subst hssn
          rw [if_pos hse]
          simp only [strip]
        · rw [if_neg hse]
          simp only [strip]

/-- C4, amended: the diff-overlay contract holds on the aligned region.
For valid trees `old` and `new` rendered from the same template whose
statics coincide at every node the diff recursively compares (slot kinds
may flip between string and subtree, and range iterations may change
freely), applying `diff old new` as an overlay to `old` — skip sentinel:
keep old's value; omitted statics: keep old's statics; nil diff: keep
old — yields a tree with the same rendered content as `new`.  The statics
proviso cannot be dropped: `diff_overlay_statics_flip` exhibits two
same-template renders, differing only in a conditional branch, on which
the contract fails. -/
theorem diff_overlay_aligned (old new : Tree)
    (hov : old.valid = true) (hnv : new.valid = true)
    (hal : aligned old new) :
    strip (applyDiff old (diff old new)) = strip new :=
  diff_overlay_aligned_aux (sizeOf new) new (le_refl _) old hal

/-- Witness for the amended C4 at the spec's seed scenarios 2–3: old tree
`{"0":"0","s":["<h1>","</h1>"]}`, new tree `{"0":"1","s":["<h1>","</h1>"]}`. -/
theorem diff_overlay_aligned_witness :
    strip (applyDiff (Tree.mk ["<h1>", "</h1>"] [.str "0"] false false 0)
        (diff (Tree.mk ["<h1>", "</h1>"] [.str "0"] false false 0)
          (Tree.mk ["<h1>", "</h1>"] [.str "1"] false false 0))) =
      strip (Tree.mk ["<h1>", "</h1>"] [.str "1"] false false 0) :=
  diff_overlay_aligned
    (Tree.mk ["<h1>", "</h1>"] [.str "0"] false false 0)
    (Tree.mk ["<h1>", "</h1>"] [.str "1"] false false 0)
    (by decide) (by decide)
    (by rw [aligned]
        simp [Tree.isRange, Tree.statics, Tree.dynamics, dynsAligned,
          dynAligned])

end Golive
